import Mathlib

/-!
# Verification of `ComingAttractions_gateway-studio35-drexel.py`

A shallow embedding of the showtime scraper for three Columbus cinemas
(Gateway Film Center, Studio 35, Drexel Theatre), together with proofs about
the claims of the specification.

Modelling conventions:

* HTML retrieval / DOM selection (requests, BeautifulSoup, Playwright) are
  external libraries; their outputs are modelled as "world" inputs.  A `none`
  world component models an exception raised by the corresponding page fetch.
* The logic the script itself performs on those outputs (regular expressions,
  `strptime`/`strftime`, set/dict manipulation, merging, truthiness tests) is
  embedded faithfully, function by function.
* Python `set` values are represented canonically as strictly sorted
  duplicate-free lists of strings; `sorted(someSet)` is then the
  representation itself.  Python `dict` values are represented as
  insertion-ordered association lists with distinct keys.
* Machine-independent text is ASCII in every scraped field that matters here;
  `lower`/`strip`/`\w`/`\d` are modelled on ASCII characters.
-/

namespace ComingAttractions

/-! ## Python string primitives -/

/-- Python whitespace characters for `str.strip` (ASCII subset). -/
def isPySpace (c : Char) : Bool :=
  c = ' ' || c = '\t' || c = '\n' || c = '\x0d' || c = '\x0b' || c = '\x0c'

/-- `str.strip()`: drop leading and trailing whitespace. -/
def pyStrip (s : String) : String :=
  ⟨((s.data.dropWhile isPySpace).reverse.dropWhile isPySpace).reverse⟩

/-- ASCII lower-casing of one character, as done by `str.lower()`. -/
def lowerChar (c : Char) : Char :=
  if 'A' ≤ c ∧ c ≤ 'Z' then Char.ofNat (c.toNat + 32) else c

/-- `str.lower()` (ASCII model). -/
def pyLower (s : String) : String := ⟨s.data.map lowerChar⟩

/-- The decimal digit character for `d < 10` (code point `48 + d`). -/
def digitChar48 (d : Nat) : Char := Char.ofNat (48 + d)

/-- Numeric value of a decimal digit character. -/
def digitVal (c : Char) : Nat := c.toNat - 48

/-- Value of a list of decimal digit characters, most significant first. -/
def digitsToNat (l : List Char) : Nat :=
  l.foldl (fun acc c => acc * 10 + digitVal c) 0

/-- Fuel-driven decimal rendering of a natural number (`str(n)` in Python);
structural recursion on the fuel keeps it kernel-reducible. -/
def natCharsGo : Nat → Nat → List Char
  | 0, _ => []
  | fuel + 1, n =>
      if n < 10 then [digitChar48 n]
      else natCharsGo fuel (n / 10) ++ [digitChar48 (n % 10)]

/-- Decimal rendering of a natural number, as `str(n)` produces it. -/
def natChars (n : Nat) : List Char := natCharsGo (n + 1) n

/-- `str(n)` for a natural number. -/
def natStr (n : Nat) : String := ⟨natChars n⟩

/-- Two zero-padded decimal digits, as `"%02d"`-style `strftime` fields
produce for values below 100. -/
def pad2 (n : Nat) : List Char := [digitChar48 (n / 10), digitChar48 (n % 10)]

/-- Four zero-padded decimal digits, as `strftime`'s `%Y` produces for years
in the `datetime` range 1..9999. -/
def pad4 (n : Nat) : List Char := pad2 (n / 100) ++ pad2 (n % 100)

/-! ## Python sets of strings

A Python `set[str]` is represented canonically: a strictly increasing
(hence duplicate-free) list.  `insertStr` is set insertion keeping the
canonical form, so `sorted(s)` is the representation itself. -/

/-- A structurally recursive decision procedure for the lexicographic order
on strings (the default one is not kernel-reducible). -/
def strLtDec (x y : String) : Decidable (x < y) :=
  decidable_of_iff (List.Lex (· < ·) x.data y.data)
    (@String.lt_iff_toList_lt x y).symm

/-- Insert a string into a canonically sorted duplicate-free list.  The
comparison goes through `strLtDec` explicitly to keep the function
kernel-reducible. -/
def insertStr (x : String) : List String → List String
  | [] => [x]
  | y :: ys =>
      match strLtDec x y with
      | isTrue _ => x :: y :: ys
      | isFalse _ => if x = y then y :: ys else y :: insertStr x ys

/-- The set of the elements of a list (`set(l)` in Python), canonically. -/
def pySetOfList (l : List String) : List String :=
  l.foldl (fun acc x => insertStr x acc) []

/-- `s.update(l)` for a Python set `s` and an iterable `l`. -/
def pySetUnionList (s : List String) (l : List String) : List String :=
  l.foldl (fun acc x => insertStr x acc) s

/-- `sorted(s)` for a Python set in canonical form: the form itself. -/
def pySetSorted (s : List String) : List String := s

/-! ## Dates and times -/

/-- The fields of a Python `datetime` that this program uses. -/
structure PyDateTime where
  year : Nat
  month : Nat
  day : Nat
  hour : Nat
  minute : Nat
  deriving DecidableEq

/-- The invariant `datetime` guarantees for every constructed value, at the
granularity used here (day-of-month is only bounded by 31). -/
def tsValid (dt : PyDateTime) : Prop :=
  1 ≤ dt.year ∧ dt.year ≤ 9999 ∧ 1 ≤ dt.month ∧ dt.month ≤ 12 ∧
    1 ≤ dt.day ∧ dt.day ≤ 31 ∧ dt.hour ≤ 23 ∧ dt.minute ≤ 59

instance (dt : PyDateTime) : Decidable (tsValid dt) := by
  unfold tsValid; infer_instance

/-- `d.strftime("%Y-%m-%d")`. -/
def strftimeYmd (y mo d : Nat) : String :=
  ⟨pad4 y ++ '-' :: pad2 mo ++ '-' :: pad2 d⟩

/-- `d.strftime("%H:%M")`. -/
def strftimeHM (h mi : Nat) : String :=
  ⟨pad2 h ++ ':' :: pad2 mi⟩

/-- `d.strftime("%Y-%m-%d %H:%M")`, the canonical timestamp format of the
program's output. -/
def mkTimestamp (dt : PyDateTime) : String :=
  strftimeYmd dt.year dt.month dt.day ++ " " ++ strftimeHM dt.hour dt.minute

/-- A string is a canonical timestamp if some valid datetime prints to it. -/
def isTimestamp (s : String) : Prop := ∃ dt, tsValid dt ∧ s = mkTimestamp dt

/-- Chronological ranking of a datetime (mixed-radix key; base 100 suffices
for every field but the year). -/
def chronoKey (dt : PyDateTime) : Nat :=
  (((dt.year * 100 + dt.month) * 100 + dt.day) * 100 + dt.hour) * 100 + dt.minute

/-- Gregorian leap-year test, as `datetime` uses. -/
def isLeapYear (y : Nat) : Bool :=
  y % 4 = 0 && (y % 100 ≠ 0 || y % 400 = 0)

/-- Length of a month, as `datetime` validates `day` against. -/
def daysInMonth (y mo : Nat) : Nat :=
  if mo = 2 then (if isLeapYear y then 29 else 28)
  else if mo = 4 ∨ mo = 6 ∨ mo = 9 ∨ mo = 11 then 30
  else 31

/-- The `datetime(year, month, day, hour, minute)` constructor: validates the
fields (raising `ValueError`, here `none`, when they are out of range). -/
def mkDateTimeChecked (y mo d h mi : Nat) : Option PyDateTime :=
  if 1 ≤ y ∧ y ≤ 9999 ∧ 1 ≤ mo ∧ mo ≤ 12 ∧ 1 ≤ d ∧ d ≤ daysInMonth y mo ∧
      h ≤ 23 ∧ mi ≤ 59 then
    some ⟨y, mo, d, h, mi⟩
  else none

/-! ## `strptime`

CPython's `_strptime` compiles a format string to a regex: whitespace in the
format becomes `\s+`, directives become the groups below, matching is
case-insensitive and anchored, and the whole data string must be consumed.
The combinators below implement exactly the directives this program uses.
As argued in the comments, the regexes involved are deterministic (no
backtracking can change acceptance), so greedy single-pass matching is
faithful. -/

/-- `\s+` from a whitespace run in the format: at least one whitespace. -/
def eatSpaces1 (cs : List Char) : Option (List Char) :=
  let rest := cs.dropWhile isPySpace
  if rest.length = cs.length then none else some rest

/-- A literal character in the format (`,` or `:` here). -/
def eatLit (c : Char) (cs : List Char) : Option (List Char) :=
  match cs with
  | [] => none
  | d :: rest => if d = c then some rest else none

/-- `%I`, regex `(1[0-2]|0[1-9]|[1-9])`: an hour from 1 to 12. -/
def parse12Hour (cs : List Char) : Option (Nat × List Char) :=
  match cs with
  | c1 :: c2 :: rest =>
      if c1 = '1' ∧ '0' ≤ c2 ∧ c2 ≤ '2' then some (10 + digitVal c2, rest)
      else if c1 = '0' ∧ '1' ≤ c2 ∧ c2 ≤ '9' then some (digitVal c2, rest)
      else if '1' ≤ c1 ∧ c1 ≤ '9' then some (digitVal c1, c2 :: rest)
      else none
  | [c1] => if '1' ≤ c1 ∧ c1 ≤ '9' then some (digitVal c1, []) else none
  | [] => none

/-- `%M`, regex `([0-5]\d|\d)`: a minute from 0 to 59. -/
def parseMinute (cs : List Char) : Option (Nat × List Char) :=
  match cs with
  | c1 :: c2 :: rest =>
      if '0' ≤ c1 ∧ c1 ≤ '5' ∧ c2.isDigit then
        some (digitVal c1 * 10 + digitVal c2, rest)
      else if c1.isDigit then some (digitVal c1, c2 :: rest)
      else none
  | [c1] => if c1.isDigit then some (digitVal c1, []) else none
  | [] => none

/-- `%d`, regex `(3[01]|[12]\d|0[1-9]|[1-9])`: a day from 1 to 31. -/
def parseDayOfMonth (cs : List Char) : Option (Nat × List Char) :=
  match cs with
  | c1 :: c2 :: rest =>
      if c1 = '3' ∧ ('0' ≤ c2 ∧ c2 ≤ '1') then some (30 + digitVal c2, rest)
      else if ('1' ≤ c1 ∧ c1 ≤ '2') ∧ c2.isDigit then
        some (digitVal c1 * 10 + digitVal c2, rest)
      else if c1 = '0' ∧ ('1' ≤ c2 ∧ c2 ≤ '9') then some (digitVal c2, rest)
      else if '1' ≤ c1 ∧ c1 ≤ '9' then some (digitVal c1, c2 :: rest)
      else none
  | [c1] => if '1' ≤ c1 ∧ c1 ≤ '9' then some (digitVal c1, []) else none
  | [] => none

/-- `%Y`, regex `(\d\d\d\d)`: exactly four digits. -/
def parseYear4 (cs : List Char) : Option (Nat × List Char) :=
  let d4 := cs.take 4
  if d4.length = 4 ∧ d4.all Char.isDigit then some (digitsToNat d4, cs.drop 4)
  else none

/-- `%p`: `am` or `pm`, case-insensitively; `true` means PM. -/
def parseAmPm (cs : List Char) : Option (Bool × List Char) :=
  match cs with
  | c1 :: c2 :: rest =>
      if lowerChar c2 = 'm' then
        if lowerChar c1 = 'a' then some (false, rest)
        else if lowerChar c1 = 'p' then some (true, rest)
        else none
      else none
  | _ => none

/-- Case-insensitive match of a fixed name (month/weekday) as a prefix;
returns the remainder.  The name is given lower-case. -/
def eatNameCI (name : List Char) (cs : List Char) : Option (List Char) :=
  match name, cs with
  | [], rest => some rest
  | _ :: _, [] => none
  | n :: ns, c :: rest => if lowerChar c = n then eatNameCI ns rest else none

/-- A named alternation (`%B`, `%b`, `%a`): first alternative that matches
wins.  No listed name is a prefix of another, so this is the regex result. -/
def parseNameOf (alts : List (List Char × Nat)) (cs : List Char) :
    Option (Nat × List Char) :=
  match alts with
  | [] => none
  | (n, v) :: more =>
      match eatNameCI n cs with
      | some rest => some (v, rest)
      | none => parseNameOf more cs

/-- Full month names for `%B`, with their month numbers. -/
def monthsFull : List (List Char × Nat) :=
  [("january".data, 1), ("february".data, 2), ("march".data, 3),
   ("april".data, 4), ("may".data, 5), ("june".data, 6), ("july".data, 7),
   ("august".data, 8), ("september".data, 9), ("october".data, 10),
   ("november".data, 11), ("december".data, 12)]

/-- Abbreviated month names for `%b`. -/
def monthsAbbr : List (List Char × Nat) :=
  [("jan".data, 1), ("feb".data, 2), ("mar".data, 3), ("apr".data, 4),
   ("may".data, 5), ("jun".data, 6), ("jul".data, 7), ("aug".data, 8),
   ("sep".data, 9), ("oct".data, 10), ("nov".data, 11), ("dec".data, 12)]

/-- Abbreviated weekday names for `%a` (the parsed value is unused). -/
def weekdaysAbbr : List (List Char × Nat) :=
  [("mon".data, 0), ("tue".data, 1), ("wed".data, 2), ("thu".data, 3),
   ("fri".data, 4), ("sat".data, 5), ("sun".data, 6)]

/-- The 12-hour to 24-hour conversion `strptime` performs for `%I` + `%p`. -/
def hour24 (h12 : Nat) (pm : Bool) : Nat :=
  if pm then (if h12 = 12 then 12 else h12 + 12)
  else (if h12 = 12 then 0 else h12)

/-- `datetime.strptime(t, "%I:%M %p")`, returning `(hour12, minute, pm)`. -/
def strptimeIMp (t : String) : Option (Nat × Nat × Bool) :=
  match parse12Hour t.data with
  | none => none
  | some (h, r1) =>
    match eatLit ':' r1 with
    | none => none
    | some r2 =>
      match parseMinute r2 with
      | none => none
      | some (m, r3) =>
        match eatSpaces1 r3 with
        | none => none
        | some r4 =>
          match parseAmPm r4 with
          | some (pm, []) => some (h, m, pm)
          | _ => none

/-- `datetime.strptime(t, "%I %p")`, returning `(hour12, pm)`. -/
def strptimeIp (t : String) : Option (Nat × Bool) :=
  match parse12Hour t.data with
  | none => none
  | some (h, r1) =>
    match eatSpaces1 r1 with
    | none => none
    | some r2 =>
      match parseAmPm r2 with
      | some (pm, []) => some (h, pm)
      | _ => none

/-- `parse_time_12h_to_24h`: parse `'7:30 pm'` or `'7 pm'` to `'HH:MM'` (24h)
or `None`.  The argument is `tstr or ""` for a possibly-`None` argument. -/
def parse_time_12h_to_24h (tstr : Option String) : Option String :=
  let t := pyLower (pyStrip (tstr.getD ""))
  match strptimeIMp t with
  | some (h, m, pm) => some (strftimeHM (hour24 h pm) m)
  | none =>
    match strptimeIp t with
    | some (h, pm) => some (strftimeHM (hour24 h pm) 0)
    | none => none

/-! ## Drexel runtime parsing

`re.search(r"(\d+)\s*hr[s]?\s*(\d+)\s*min", text, re.I)` and
`re.search(r"(\d+)\s*min", text, re.I)`.  `\d+` here never benefits from
backtracking (the following token can never match a digit), so a greedy
single-pass match at each position, taken at the leftmost succeeding
position, is the regex result. -/

/-- Greedy match of `(\d+)\s*hr[s]?\s*(\d+)\s*min` (case-insensitive)
anchored at the head of the list. -/
def matchHrMinAt (cs : List Char) : Option (Nat × Nat) :=
  let d1 := cs.takeWhile Char.isDigit
  if d1.isEmpty then none else
  match (cs.dropWhile Char.isDigit).dropWhile isPySpace with
  | c1 :: c2 :: r1 =>
    if lowerChar c1 = 'h' ∧ lowerChar c2 = 'r' then
      let r2 := match r1 with
        | c3 :: r2 => if lowerChar c3 = 's' then r2 else r1
        | [] => r1
      let r3 := r2.dropWhile isPySpace
      let d2 := r3.takeWhile Char.isDigit
      if d2.isEmpty then none else
      match (r3.dropWhile Char.isDigit).dropWhile isPySpace with
      | m1 :: m2 :: m3 :: _ =>
        if lowerChar m1 = 'm' ∧ lowerChar m2 = 'i' ∧ lowerChar m3 = 'n' then
          some (digitsToNat d1, digitsToNat d2)
        else none
      | _ => none
    else none
  | _ => none

/-- Greedy match of `(\d+)\s*min` (case-insensitive) anchored at the head. -/
def matchMinAt (cs : List Char) : Option Nat :=
  let d1 := cs.takeWhile Char.isDigit
  if d1.isEmpty then none else
  match (cs.dropWhile Char.isDigit).dropWhile isPySpace with
  | m1 :: m2 :: m3 :: _ =>
    if lowerChar m1 = 'm' ∧ lowerChar m2 = 'i' ∧ lowerChar m3 = 'n' then
      some (digitsToNat d1)
    else none
  | _ => none

/-- `re.search` for the hours+minutes pattern: leftmost matching position. -/
def searchHrMin : List Char → Option (Nat × Nat)
  | [] => none
  | c :: rest =>
      match matchHrMinAt (c :: rest) with
      | some r => some r
      | none => searchHrMin rest

/-- `re.search` for the bare minutes pattern: leftmost matching position. -/
def searchMin : List Char → Option Nat
  | [] => none
  | c :: rest =>
      match matchMinAt (c :: rest) with
      | some r => some r
      | none => searchMin rest

/-- `parse_drexel_runtime_minutes`: parse something like `'...| 2 hr 35 min'`
or `'...| 107 min'`. -/
def parse_drexel_runtime_minutes (descriptive_text : String) : Option Nat :=
  if descriptive_text = "" then none else
  let text := pyStrip descriptive_text
  match searchHrMin text.data with
  | some (h, m) => some (h * 60 + m)
  | none =>
    match searchMin text.data with
    | some m => some m
    | none => none

/-! ## Studio 35 runtime parsing (JSON-LD)

A `<script type="application/ld+json">` block is modelled after `json.loads`:
either its raw text was falsy (skipped), or `json.loads` raised (the
surrounding `try` then aborts the whole scan), or it parsed to a JSON
value. -/

/-- A JSON value, as far as this program inspects one. -/
inductive JVal where
  | jnull : JVal
  | jbool : Bool → JVal
  | jnum : Int → JVal
  | jstr : String → JVal
  | jarr : List JVal → JVal
  | jobj : List (String × JVal) → JVal

/-- One `ld+json` script block, after `json.loads`. -/
inductive ScriptBlock where
  | empty : ScriptBlock
  | malformed : ScriptBlock
  | parsed : JVal → ScriptBlock

/-- Python truthiness of a JSON value. -/
def jTruthy : JVal → Bool
  | .jnull => false
  | .jbool b => b
  | .jnum n => n ≠ 0
  | .jstr s => s ≠ ""
  | .jarr l => !l.isEmpty
  | .jobj l => !l.isEmpty

/-- `obj.get(k)` on a parsed JSON object. -/
def jGet (fields : List (String × JVal)) (k : String) : Option JVal :=
  match fields.find? (fun kv => kv.1 = k) with
  | some kv => some kv.2
  | none => none

/-- Python `==` between a JSON value and the string `"Movie"`. -/
def jIsMovie : Option JVal → Bool
  | some (.jstr s) => s = "Movie"
  | _ => false

/-- `data if isinstance(data, list) else [data]`. -/
def jCandidates : JVal → List JVal
  | .jarr l => l
  | v => [v]

/-- `re.match(r"PT(?:(\d+)H)?(?:(\d+)M)?", duration)`: anchored at the
start; each optional group matches a maximal digit run iff that run is
non-empty and directly followed by the group's letter (backtracking inside
`\d+` cannot help, since `H`/`M` are not digits).  Returns the two optional
groups, or `none` when the literal `PT` is absent. -/
def matchPTDuration (s : String) : Option (Option Nat × Option Nat) :=
  match s.data with
  | c1 :: c2 :: rest =>
      if c1 = 'P' ∧ c2 = 'T' then
        let dh := rest.takeWhile Char.isDigit
        let (hours, afterH) :=
          match rest.dropWhile Char.isDigit with
          | c :: r => if c = 'H' ∧ ¬ dh.isEmpty then
                (some (digitsToNat dh), r)
              else (none, rest)
          | [] => (none, rest)
        let dm := afterH.takeWhile Char.isDigit
        let minutes :=
          match afterH.dropWhile Char.isDigit with
          | c :: _ => if c = 'M' ∧ ¬ dm.isEmpty then some (digitsToNat dm)
              else none
          | [] => none
        some (hours, minutes)
      else none
  | _ => none

/-- The body of the candidate scan: first `Movie` object with a truthy,
matching duration wins; a non-string truthy duration raises `TypeError`
in `re.match`, which the function's `try` turns into `None` (`.error`). -/
def s35ScanCandidates : List JVal → Except Unit (Option Nat)
  | [] => .ok none
  | obj :: more =>
      match obj with
      | .jobj fields =>
          if jIsMovie (jGet fields "@type") then
            match jGet fields "duration" with
            | none => s35ScanCandidates more
            | some dv =>
                if jTruthy dv then
                  match dv with
                  | .jstr duration =>
                      match matchPTDuration duration with
                      | none => s35ScanCandidates more
                      | some (gh, gm) =>
                          .ok (some ((gh.getD 0) * 60 + (gm.getD 0)))
                  | _ => .error ()
                else s35ScanCandidates more
          else s35ScanCandidates more
      | _ => s35ScanCandidates more

/-- The scan over the script blocks: an empty raw text is skipped, a
`json.loads` failure raises (caught below as `None`). -/
def s35ScanScripts : List ScriptBlock → Except Unit (Option Nat)
  | [] => .ok none
  | .empty :: more => s35ScanScripts more
  | .malformed :: more => let _ := more; .error ()
  | .parsed v :: more =>
      match s35ScanCandidates (jCandidates v) with
      | .error e => .error e
      | .ok (some r) => .ok (some r)
      | .ok none => s35ScanScripts more

/-- `parse_studio35_runtime_minutes_from_soup`: parse the JSON-LD duration
`'PT#H#M'` on the movie page to total minutes, or `None`; any exception
inside the scan also yields `None`. -/
def parse_studio35_runtime_minutes_from_soup (scripts : List ScriptBlock) :
    Option Nat :=
  match s35ScanScripts scripts with
  | .ok r => r
  | .error _ => none

/-! ## `int(...)` and `datetime.fromtimestamp` -/

/-- `int(s)` for a string: optional sign and a non-empty digit run, with
surrounding whitespace allowed; `none` models `ValueError`. -/
def pyInt (s : String) : Option Int :=
  let t := (pyStrip s).data
  let core : Option (Bool × List Char) :=
    match t with
    | '-' :: rest => some (true, rest)
    | '+' :: rest => some (false, rest)
    | rest => some (false, rest)
  match core with
  | some (neg, digits) =>
      if digits ≠ [] ∧ digits.all Char.isDigit then
        let v : Int := Int.ofNat (digitsToNat digits)
        some (if neg then -v else v)
      else none
  | none => none

/-- `datetime.fromtimestamp(t)` (modelled in UTC): epoch seconds to a civil
datetime via the standard era-based conversion, `none` when the result is
outside `datetime`'s range (Python raises there).  The month/day bounds in
the final guard are the library's own invariant on its result. -/
def pyFromtimestamp (t : Int) : Option PyDateTime :=
  let days : Int := t.fdiv 86400
  let sod : Nat := (t - days * 86400).toNat
  let z : Int := days + 719468
  let era : Int := z.fdiv 146097
  let doe : Nat := (z - era * 146097).toNat
  let yoe : Nat := (doe - doe / 1460 + doe / 36524 - doe / 146096) / 365
  let doy : Nat := doe - (365 * yoe + yoe / 4 - yoe / 100)
  let mp : Nat := (5 * doy + 2) / 153
  let d : Nat := doy - (153 * mp + 2) / 5 + 1
  let m : Nat := if mp < 10 then mp + 3 else mp - 9
  let y : Int := (yoe : Int) + era * 400 + (if m ≤ 2 then 1 else 0)
  let hour : Nat := sod / 3600
  let minute : Nat := sod % 3600 / 60
  let dtc : PyDateTime := ⟨y.toNat, m, d, hour, minute⟩
  if tsValid dtc then some dtc else none

/-! ## Gateway Film Center

World model: the DOM-selection results of the pages `fetch_gateway`
retrieves.  `parse_gateway_runtime_minutes` performs its own request and
catches every exception internally, so it is modelled as an oracle
`runtimeOf : String → Option Nat`; the embedding additionally records the
list of URLs it is invoked on (the fetch trace). -/

/-- One `ol.showtimes li[data-date]` element of a Gateway showtimes block. -/
structure GTimeLi where
  /-- The `data-date` attribute. -/
  epochAttr : String
  /-- Text of the `a.showtime` anchor, when the anchor exists. -/
  anchorText : Option String
  /-- Text of the next `a.pill` tag, when `find_next` finds one. -/
  pillText : Option String
  /-- `li.get_text(" ", strip=True)`. -/
  liText : String

/-- One block from the upcoming-films page (`div.showtimes-description`). -/
structure GUBlock where
  /-- `h2.show-title a` when present: its text and optional `href`. -/
  titleAnchor : Option (String × Option String)
  /-- Otherwise the bare `h2.show-title` text, when that element exists. -/
  titleH2 : Option String
  /-- `data-date` attributes of `ul.datelist li.show-date[data-date]`. -/
  dateLis : List String
  /-- The showtime list items. -/
  timeLis : List GTimeLi

/-- A Gateway movie page, as `collect_from_homepage` inspects one. -/
structure GMoviePage where
  /-- Combined result of the two title selectors, when either matches. -/
  titleText : Option String
  /-- `data-date` attributes of `ul.datelist li.show-date[data-date]`. -/
  dateLis : List String
  /-- The showtime list items. -/
  timeLis : List GTimeLi

/-- The Gateway homepage, as `collect_from_homepage` inspects it. -/
structure GHomePage where
  /-- `urljoin`ed `href`s under `#now-playing a[href*='/movies/']`. -/
  nowPlayingLinks : List String
  /-- `urljoin`ed `href`s of the fallback selector `.show a[...]`. -/
  fallbackLinks : List String

/-- The fetched inputs of one `fetch_gateway` run.  `none` models the
request for that page raising. -/
structure GWorld where
  upcoming : Option (List GUBlock)
  home : Option GHomePage
  moviePage : String → Option GMoviePage
  runtimeOf : String → Option Nat

/-- A value of `out[key]` in the two collectors (a Python dict). -/
structure GRec where
  title : String
  url : Option String
  showtimes : List String
  runtime : Option Nat

/-- Python truthiness of the optional runtime (`None` and `0` are falsy). -/
def truthyRt : Option Nat → Bool
  | some n => n ≠ 0
  | none => false

/-- Python `link or title` on an optional href string: `None` and the empty
string are falsy, so both fall back to the title. -/
def pyOrStr (link : Option String) (title : String) : String :=
  match link with
  | some s => if s = "" then title else s
  | none => title

/-- First-match lookup in an association list (Python `d[k]` / `k in d`). -/
def alookup {α : Type} (m : List (String × α)) (k : String) : Option α :=
  match m.find? (fun kv => kv.1 = k) with
  | some kv => some kv.2
  | none => none

/-- `d[k] = v`: replace in place when the key exists, else append. -/
def dictAssign {α : Type} (m : List (String × α)) (k : String) (v : α) :
    List (String × α) :=
  match m with
  | [] => [(k, v)]
  | (k', v') :: rest =>
      if k' = k then (k, v) :: rest else (k', v') :: dictAssign rest k v

/-- The `date_map` loop shared by both collectors: strip each `data-date`,
skip falsy ones, and map epoch text to `datetime.fromtimestamp(int(epoch))`,
skipping entries where `int` or `fromtimestamp` raises. -/
def gatewayDateMap (dateLis : List String) : List (String × PyDateTime) :=
  dateLis.foldl
    (fun acc li =>
      let epoch := pyStrip li
      if epoch = "" then acc
      else
        match pyInt epoch with
        | none => acc
        | some n =>
            match pyFromtimestamp n with
            | none => acc
            | some d => dictAssign acc epoch d)
    []

/-- An ASCII word character, for the regex `\b` boundary. -/
def isWordChar (c : Char) : Bool := c.isAlpha || c.isDigit || c = '_'

/-- Scan for `\b4K\b` (case-insensitive): a `4` followed by `K`/`k`, with no
word character directly before or after.  `prv` is the previous character. -/
def scan4K : Option Char → List Char → Bool
  | _, [] => false
  | prv, c :: rest =>
      (c = '4' &&
        (match prv with
         | none => true
         | some p => !isWordChar p) &&
        (match rest with
         | k :: rest2 =>
             (k = 'K' || k = 'k') &&
               (match rest2 with
                | [] => true
                | n :: _ => !isWordChar n)
         | [] => false)) ||
      scan4K (some c) rest

/-- `re.search(r"\b4K\b", s, re.I) is not None`. -/
def contains4K (s : String) : Bool := scan4K none s.data

/-- The label logic next to one showtime: a pill reduces to `4K` when it
mentions 4K, else to its first 20 characters stripped; failing that, the
item's own text is searched for 4K. -/
def gatewayLabel (pillText : Option String) (liText : String) : Option String :=
  let label : Option String :=
    match pillText with
    | some p =>
        if contains4K p then some "4K"
        else
          let short := pyStrip ⟨p.data.take 20⟩
          if short ≠ "" then some short else none
    | none => none
  match label with
  | some l => some l
  | none => if contains4K liText then some "4K" else none

/-- One formatted showtime entry, `f"{d.strftime('%Y-%m-%d')} {t24}"` plus
the optional ` ({label})` suffix. -/
def gatewayEntry (d : PyDateTime) (t24 : String) (label : Option String) :
    String :=
  strftimeYmd d.year d.month d.day ++ " " ++ t24 ++
    (match label with
     | some l => " (" ++ l ++ ")"
     | none => "")

/-- The showtime loop of `showtimes_from_block` (upcoming page variant:
the anchor text is `(a.get_text(strip=True) or "").strip()`). -/
def gatewayShowsUpcoming (dateMap : List (String × PyDateTime))
    (timeLis : List GTimeLi) : List String :=
  timeLis.foldl
    (fun shows li =>
      let epoch := pyStrip li.epochAttr
      match alookup dateMap epoch with
      | none => shows
      | some d =>
          match li.anchorText with
          | none => shows
          | some a =>
              let time_text := pyStrip a
              match parse_time_12h_to_24h (some time_text) with
              | none => shows
              | some t24 =>
                  shows ++ [gatewayEntry d t24 (gatewayLabel li.pillText li.liText)])
    []

/-- `showtimes_from_block`: date-list epochs plus times, deduplicated and
sorted (`sorted(set(shows))`). -/
def showtimes_from_block (block : GUBlock) : List String :=
  pySetOfList (gatewayShowsUpcoming (gatewayDateMap block.dateLis) block.timeLis)

/-- The showtime loop of `collect_from_homepage` (identical to the one in
`showtimes_from_block` except that the anchor text is passed to
`parse_time_12h_to_24h` unstripped). -/
def gatewayShowsHomepage (dateMap : List (String × PyDateTime))
    (timeLis : List GTimeLi) : List String :=
  timeLis.foldl
    (fun shows li =>
      let epoch := pyStrip li.epochAttr
      match alookup dateMap epoch with
      | none => shows
      | some d =>
          match li.anchorText with
          | none => shows
          | some a =>
              match parse_time_12h_to_24h (some a) with
              | none => shows
              | some t24 =>
                  shows ++ [gatewayEntry d t24 (gatewayLabel li.pillText li.liText)])
    []

/-- The runtime cache, `dict[str, int | None]`. -/
def GCache : Type := List (String × Option Nat)

/-- State threaded through `collect_from_upcoming`: the `out` dict, the
runtime cache, and the trace of runtime-page fetches performed so far. -/
structure GCollectState where
  out : List (String × GRec)
  cache : GCache
  trace : List String

/-- The title/link selection at the head of the `for block` loop:
`h2.show-title a` when present, else the bare `h2.show-title` text with no
link, else skip the block. -/
def upcomingTitleLink (block : GUBlock) : Option (String × Option String) :=
  match block.titleAnchor with
  | some (text, href) => some (text, href)
  | none =>
      match block.titleH2 with
      | some h2text => some (h2text, none)
      | none => none

/-- The cached runtime fetch of `collect_from_upcoming`: the guard is
`if link:` — Python string truthiness, so a missing href and an empty-string
href both skip the fetch — then consult `runtime_cache` first and record a
fetch (trace entry) only on a miss. -/
def upcomingRuntime (orac : String → Option Nat) (st : GCollectState)
    (link : Option String) : GCache × List String × Option Nat :=
  match link with
  | none => (st.cache, st.trace, none)
  | some l =>
      if l = "" then (st.cache, st.trace, none)
      else
        match alookup st.cache l with
        | some cached => (st.cache, st.trace, cached)
        | none => (dictAssign st.cache l (orac l), st.trace ++ [l], orac l)

/-- The `out[key]` update of `collect_from_upcoming`: create the record on a
fresh key, then extend its showtime set and fill in a missing runtime. -/
def upcomingInsert (out : List (String × GRec)) (key title : String)
    (link : Option String) (runtime : Option Nat) (shows : List String) :
    List (String × GRec) :=
  match alookup out key with
  | none =>
      let fresh : GRec :=
        { title := title, url := link,
          showtimes := pySetUnionList [] shows, runtime := runtime }
      let fresh1 :=
        if truthyRt runtime ∧ ¬ truthyRt fresh.runtime then
          { fresh with runtime := runtime }
        else fresh
      out ++ [(key, fresh1)]
  | some old =>
      let upd : GRec :=
        { old with showtimes := pySetUnionList old.showtimes shows }
      let upd1 :=
        if truthyRt runtime ∧ ¬ truthyRt upd.runtime then
          { upd with runtime := runtime }
        else upd
      dictAssign out key upd1

/-- The body of the `for block in blocks` loop of `collect_from_upcoming`. -/
def upcomingStep (orac : String → Option Nat) (st : GCollectState)
    (block : GUBlock) : GCollectState :=
  match upcomingTitleLink block with
  | none => st
  | some (title, link) =>
      let showtimes := showtimes_from_block block
      let (cache, trace, runtime) := upcomingRuntime orac st link
      ⟨upcomingInsert st.out (pyOrStr link title) title link runtime showtimes,
        cache, trace⟩

/-- `collect_from_upcoming`: on a request failure the surrounding `try`
returns the empty dict; otherwise fold over the blocks. -/
def collect_from_upcoming (w : GWorld) : GCollectState :=
  match w.upcoming with
  | none => ⟨[], [], []⟩
  | some blocks => blocks.foldl (upcomingStep w.runtimeOf) ⟨[], [], []⟩

/-- The `links` set of `collect_from_homepage`: the now-playing anchors, or
the fallback selector when that set is empty; each anchor passes the
`if href:` truthiness test before it is added, so falsy (empty) hrefs are
skipped; `sorted(links)` is the canonical form itself. -/
def homepageLinks (hp : GHomePage) : List String :=
  let links := pySetOfList (hp.nowPlayingLinks.filter (fun h => h ≠ ""))
  if links.isEmpty then
    pySetOfList (hp.fallbackLinks.filter (fun h => h ≠ ""))
  else links

/-- The body of the `for murl in sorted(links)` loop: a per-movie failure is
caught (`continue`); the runtime request is issued directly, without
consulting the cache. -/
def homepageStep (w : GWorld) (st : List (String × GRec) × List String)
    (murl : String) : List (String × GRec) × List String :=
  match w.moviePage murl with
  | none => st
  | some page =>
      let title := page.titleText.getD "Unknown"
      let showtimes :=
        gatewayShowsHomepage (gatewayDateMap page.dateLis) page.timeLis
      let runtime := w.runtimeOf murl
      let rec_ : GRec :=
        { title := title, url := some murl,
          showtimes := pySetOfList showtimes, runtime := runtime }
      (dictAssign st.1 murl rec_, st.2 ++ [murl])

/-- `collect_from_homepage`: the homepage-request failure is caught and
yields the empty dict; also returns the runtime-fetch trace. -/
def collect_from_homepage (w : GWorld) : List (String × GRec) × List String :=
  match w.home with
  | none => ([], [])
  | some hp => (homepageLinks hp).foldl (homepageStep w) ([], [])

/-- What one merge-loop iteration stores at key `k`: the specification of
`mergeStep`'s effect on that key. -/
def mergeCombine (old : Option GRec) (v : GRec) : GRec :=
  match old with
  | none =>
      { title := v.title, url := v.url,
        showtimes := pySetUnionList [] v.showtimes,
        runtime := if truthyRt v.runtime then v.runtime else v.runtime }
  | some o =>
      { o with
        showtimes := pySetUnionList o.showtimes v.showtimes,
        runtime := if truthyRt v.runtime then v.runtime else o.runtime }

/-- One iteration of the two merge loops of `fetch_gateway`
(`by_key.setdefault(...)`, `showtimes.update(...)`, conditional runtime
overwrite); the stored record is `mergeCombine` of the present one and the
incoming one. -/
def mergeStep (m : List (String × GRec)) (kv : String × GRec) :
    List (String × GRec) :=
  let (k, v) := kv
  match alookup m k with
  | none => m ++ [(k, mergeCombine none v)]
  | some old => dictAssign m k (mergeCombine (some old) v)

/-- The `by_key` dict of `fetch_gateway`: both collector results merged. -/
def gateway_by_key (w : GWorld) : List (String × GRec) :=
  let part_a := (collect_from_upcoming w).out
  let part_b := (collect_from_homepage w).1
  part_b.foldl mergeStep (part_a.foldl mergeStep [])

/-- One output record of a venue. -/
structure Listing where
  title : String
  url : Option String
  runtime : Option Nat
  showtimes : List String

/-- `fetch_gateway`: merged records in insertion order, each with its
showtime set sorted; paired with the trace of runtime-page fetches. -/
def fetch_gateway (w : GWorld) : List Listing × List String :=
  let stA := collect_from_upcoming w
  let (_, traceB) := collect_from_homepage w
  let results :=
    (gateway_by_key w).map fun kv =>
      { title := kv.2.title, url := kv.2.url, runtime := kv.2.runtime,
        showtimes := pySetSorted kv.2.showtimes : Listing }
  (results, stA.trace ++ traceB)

/-! ## Studio 35 -/

/-- `datetime.strptime(f"{text} {y}", "%B %d, %I:%M %p %Y")`, followed by the
`datetime` construction (12-hour conversion and field validation). -/
def strptimeStudio35 (text : String) (y : Nat) : Option PyDateTime :=
  let data := text.data ++ ' ' :: natChars y
  match parseNameOf monthsFull data with
  | none => none
  | some (mo, r1) =>
    match eatSpaces1 r1 with
    | none => none
    | some r2 =>
      match parseDayOfMonth r2 with
      | none => none
      | some (d, r3) =>
        match eatLit ',' r3 with
        | none => none
        | some r4 =>
          match eatSpaces1 r4 with
          | none => none
          | some r5 =>
            match parse12Hour r5 with
            | none => none
            | some (h12, r6) =>
              match eatLit ':' r6 with
              | none => none
              | some r7 =>
                match parseMinute r7 with
                | none => none
                | some (mi, r8) =>
                  match eatSpaces1 r8 with
                  | none => none
                  | some r9 =>
                    match parseAmPm r9 with
                    | none => none
                    | some (pm, r10) =>
                      match eatSpaces1 r10 with
                      | none => none
                      | some r11 =>
                        match parseYear4 r11 with
                        | some (yr, []) =>
                            mkDateTimeChecked yr mo d (hour24 h12 pm) mi
                        | _ => none

/-- A Studio 35 movie page, as the script inspects it. -/
structure S35Page where
  /-- Result of the `h1[itemprop='name']` / `h1` title selectors. -/
  titleText : Option String
  /-- Texts of `h2 a[href*='/checkout/showing/']`, e.g.
  `"September 24, 8:45 pm"`. -/
  showtimeTexts : List String
  /-- The `application/ld+json` script blocks. -/
  scripts : List ScriptBlock

/-- The fetched inputs of one `fetch_studio35` run.  `homeHrefs = none`
models `page.goto(base_url)` raising; a `none` page models the per-movie
`page.goto` raising.  An absent `href` attribute is modelled as `""` (both
are falsy and filtered out identically). -/
structure S35World where
  homeHrefs : Option (List String)
  page : String → Option S35Page

/-- `"https://studio35.com" + link if link.startswith("/") else link`
(`startswith("/")` is a first-character test). -/
def s35FullLink (link : String) : String :=
  match link.data with
  | '/' :: _ => "https://studio35.com" ++ link
  | _ => link

/-- The showtime list of one Studio 35 page: each anchor text is parsed with
the current year appended; `ValueError` skips the entry. -/
def s35Showtimes (y : Nat) (texts : List String) : List String :=
  texts.foldl
    (fun acc text =>
      match strptimeStudio35 text y with
      | none => acc
      | some dt => acc ++ [mkTimestamp dt])
    []

/-- The `for link in links` loop of `fetch_studio35`; a failing `page.goto`
propagates (`Except.error`). -/
def s35Loop (y : Nat) (w : S35World) : List String → Except Unit (List Listing)
  | [] => .ok []
  | link :: more =>
      let full_link := s35FullLink link
      match w.page full_link with
      | none => .error ()
      | some pg =>
          let title := pg.titleText.getD "Unknown"
          let showtimes := s35Showtimes y pg.showtimeTexts
          let runtime := parse_studio35_runtime_minutes_from_soup pg.scripts
          match s35Loop y w more with
          | .error e => .error e
          | .ok rest =>
              .ok ({ title := title, url := full_link, runtime := runtime,
                     showtimes := pySetSorted (pySetOfList showtimes) : Listing }
                   :: rest)

/-- `fetch_studio35`: collect the deduplicated movie links of the homepage
(in sorted order) and scrape each movie page; `y` is
`datetime.now().year`. -/
def fetch_studio35 (y : Nat) (w : S35World) : Except Unit (List Listing) :=
  match w.homeHrefs with
  | none => .error ()
  | some hrefs =>
      let links := pySetOfList (hrefs.filter (fun h => h ≠ ""))
      s35Loop y w links

/-! ## Drexel Theatre -/

/-- `datetime.strptime(f"{s} {y}", "%a, %b %d %I:%M %p %Y")` where `s` is
`f"{date_text} {time_text}"`, followed by the `datetime` construction. -/
def strptimeDrexel (s : String) (y : Nat) : Option PyDateTime :=
  let data := s.data ++ ' ' :: natChars y
  match parseNameOf weekdaysAbbr data with
  | none => none
  | some (_, r0) =>
    match eatLit ',' r0 with
    | none => none
    | some r1 =>
      match eatSpaces1 r1 with
      | none => none
      | some r2 =>
        match parseNameOf monthsAbbr r2 with
        | none => none
        | some (mo, r3) =>
          match eatSpaces1 r3 with
          | none => none
          | some r4 =>
            match parseDayOfMonth r4 with
            | none => none
            | some (d, r5) =>
              match eatSpaces1 r5 with
              | none => none
              | some r6 =>
                match parse12Hour r6 with
                | none => none
                | some (h12, r7) =>
                  match eatLit ':' r7 with
                  | none => none
                  | some r8 =>
                    match parseMinute r8 with
                    | none => none
                    | some (mi, r9) =>
                      match eatSpaces1 r9 with
                      | none => none
                      | some r10 =>
                        match parseAmPm r10 with
                        | none => none
                        | some (pm, r11) =>
                          match eatSpaces1 r11 with
                          | none => none
                          | some r12 =>
                            match parseYear4 r12 with
                            | some (yr, []) =>
                                mkDateTimeChecked yr mo d (hour24 h12 pm) mi
                            | _ => none

/-- The `h3.Name` contents of one Drexel list item. -/
structure DrexelName where
  titleText : String
  /-- Text of the nested `div.Descriptive`, when that element exists. -/
  descText : Option String

/-- One `div.ShowingTimes` block. -/
structure DShowBlock where
  /-- Text of `span.Date`, when present (e.g. `"Mon, Sep 29"`). -/
  dateText : Option String
  /-- Texts of `span.Showing a` (e.g. `"7:00 PM"`). -/
  timeTexts : List String

/-- One `div.ItemInfo` element of the Drexel list page. -/
structure DrexelItem where
  name : Option DrexelName
  /-- The `a.ViewLink` found by `find_next`: `none` when there is no such
  tag, `some none` when the tag exists but has no `href` attribute (then
  `link_tag["href"]` raises `KeyError`), `some (some h)` when it has
  `href` `h`. -/
  viewHref : Option (Option String)
  blocks : List DShowBlock

/-- The fetched input of one `fetch_drexel` run; `none` models the single
page request (or `raise_for_status`) raising. -/
structure DWorld where
  page : Option (List DrexelItem)

/-- The showtime loop of one Drexel item: blocks without a date span are
skipped, each time is parsed with the current year appended, and
`ValueError` skips the entry. -/
def drexelShowtimes (y : Nat) (blocks : List DShowBlock) : List String :=
  blocks.foldl
    (fun acc blk =>
      match blk.dateText with
      | none => acc
      | some date_text =>
          blk.timeTexts.foldl
            (fun acc2 time_text =>
              match strptimeDrexel (date_text ++ " " ++ time_text) y with
              | none => acc2
              | some dt => acc2 ++ [mkTimestamp dt])
            acc)
    []

/-- `link = BASE + link_tag["href"] if link_tag else None`: no tag gives
`None`, a tag without an `href` raises `KeyError` (nothing in `fetch_drexel`
catches it), a tag with an `href` gives the prefixed URL. -/
def drexelLink : Option (Option String) → Except Unit (Option String)
  | none => .ok none
  | some none => .error ()
  | some (some h) =>
      .ok (some ("https://prod1.agileticketing.net/websales/pages/" ++ h))

/-- The `for item in items` loop of `fetch_drexel`: items without an
`h3.Name` are skipped, but a named item whose `a.ViewLink` lacks an `href`
aborts the whole unit (uncaught `KeyError`). -/
def drexelLoop (y : Nat) : List DrexelItem → Except Unit (List Listing)
  | [] => .ok []
  | item :: more =>
      match item.name with
      | none => drexelLoop y more
      | some nm =>
          match drexelLink item.viewHref with
          | .error e => .error e
          | .ok link =>
              match drexelLoop y more with
              | .error e => .error e
              | .ok rest =>
                  .ok ({ title := nm.titleText, url := link,
                         runtime := parse_drexel_runtime_minutes
                           (nm.descText.getD ""),
                         showtimes := pySetSorted (pySetOfList
                           (drexelShowtimes y item.blocks)) : Listing }
                    :: rest)

/-- `fetch_drexel`: the single list-page request is not inside any `try`,
so its failure propagates out of the unit, as does a `KeyError` from the
item loop. -/
def fetch_drexel (y : Nat) (w : DWorld) : Except Unit (List Listing) :=
  match w.page with
  | none => .error ()
  | some items => drexelLoop y items

/-! ## Combine all -/

/-- `fetch_all_cinemas`: run the three units in order and assemble the
venue-keyed mapping that is then serialized to `cinemas.json`.  An exception
from a unit propagates and nothing is written. -/
def fetch_all_cinemas (y : Nat) (wG : GWorld) (wS : S35World) (wD : DWorld) :
    Except Unit (List (String × List Listing)) :=
  let gateway := (fetch_gateway wG).1
  match fetch_studio35 y wS with
  | .error e => .error e
  | .ok studio35 =>
      match fetch_drexel y wD with
      | .error e => .error e
      | .ok drexel =>
          .ok [("gateway", gateway), ("studio35", studio35),
               ("drexel", drexel)]

/-- The content of `cinemas.json` after a run: `open(..., "w")` truncates
and `json.dump` writes the whole mapping, so a successful run replaces the
file regardless of its previous content, and a failing run leaves the
previous content in place. -/
def cinemas_json_after (y : Nat) (wG : GWorld) (wS : S35World) (wD : DWorld)
    (prev : Option (List (String × List Listing))) :
    Option (List (String × List Listing)) :=
  match fetch_all_cinemas y wG wS wD with
  | .ok doc => some doc
  | .error _ => prev

/-! ## Derived notions used by the claims -/

/-- The optional ` ({label})` suffix of a Gateway showtime entry. -/
def labelSuffix : Option String → String
  | some l => " (" ++ l ++ ")"
  | none => ""

/-- The shape of every Gateway showtime string: a canonical timestamp,
optionally followed by a label suffix. -/
def GShape (s : String) : Prop :=
  ∃ dt ol, tsValid dt ∧ s = mkTimestamp dt ++ labelSuffix ol

/-- The merge key a final Gateway record corresponds to — the program's
`key = link or title`: its URL when that is truthy (present and non-empty),
else its title. -/
def recKey (l : Listing) : String := pyOrStr l.url l.title

/-- A well-formed collected record: its showtime set is canonical and every
showtime has the Gateway shape. -/
def recOK (r : GRec) : Prop :=
  r.showtimes.Pairwise (· < ·) ∧ ∀ s ∈ r.showtimes, GShape s

/-- All records of a collected dict are well formed. -/
def outOK (m : List (String × GRec)) : Prop := ∀ kv ∈ m, recOK kv.2

/-- Every record of a collected dict sits at its own merge key. -/
def keysOK (m : List (String × GRec)) : Prop :=
  ∀ kv ∈ m, kv.1 = pyOrStr kv.2.url kv.2.title

/-- After `PT`, the rest of a duration string has neither an hour nor a
minute component: no leading digit run directly followed by `H` (hours), and
none directly followed by `M` (minutes). -/
def ptNoComponents (rest : List Char) : Prop :=
  rest.takeWhile Char.isDigit = [] ∨
    (match rest.dropWhile Char.isDigit with
     | [] => True
     | c :: _ => c ≠ 'H' ∧ c ≠ 'M')

/-! ## Concrete worlds for witnesses and counterexamples -/

/-- A Gateway world whose upcoming page and homepage share one movie URL,
with a `4K Restoration` pill next to one showtime. -/
def gwA : GWorld where
  upcoming := some [
    { titleAnchor := some ("Dracula",
        some "https://gatewayfilmcenter.org/movies/dracula/"),
      titleH2 := none,
      dateLis := ["1759700000", "1759800000"],
      timeLis := [
        ⟨"1759700000", some "7:30 pm", none, "7:30 pm"⟩,
        ⟨"1759800000", some "2:00 pm", some "4K Restoration", "2:00 pm"⟩,
        ⟨"1759800000", some "9:15 pm", none, "9:15 pm"⟩] }]
  home := some
    { nowPlayingLinks := ["https://gatewayfilmcenter.org/movies/dracula/"],
      fallbackLinks := [] }
  moviePage := fun u =>
    if u = "https://gatewayfilmcenter.org/movies/dracula/" then
      some { titleText := some "Dracula",
             dateLis := ["1759700000"],
             timeLis := [⟨"1759700000", some "11:00 am", none, "11:00 am"⟩] }
    else none
  runtimeOf := fun _ => some 149

/-- A Gateway world in which both page requests fail. -/
def gwFail : GWorld where
  upcoming := none
  home := none
  moviePage := fun _ => none
  runtimeOf := fun _ => none

/-- A Studio 35 world with one movie page. -/
def s35A : S35World where
  homeHrefs := some ["/movie/rocky-horror", "/movie/rocky-horror", ""]
  page := fun u =>
    if u = "https://studio35.com/movie/rocky-horror" then
      some { titleText := some "Rocky Horror",
             showtimeTexts := ["October 31, 11:55 pm", "bogus",
               "October 30, 9:00 pm"],
             scripts := [.parsed (.jobj [("@type", .jstr "Movie"),
               ("duration", .jstr "PT1H40M")])] }
    else none

/-- A second Studio 35 world, differing from `s35A`. -/
def s35B : S35World where
  homeHrefs := some ["/movie/eraserhead"]
  page := fun u =>
    if u = "https://studio35.com/movie/eraserhead" then
      some { titleText := some "Eraserhead",
             showtimeTexts := ["November 2, 7:00 pm"],
             scripts := [] }
    else none

/-- A Studio 35 world in which the homepage request fails. -/
def s35Fail : S35World where
  homeHrefs := none
  page := fun _ => none

/-- The items on the Drexel list page of `drxA`. -/
def drxA_items : List DrexelItem :=
  [{ name := some ⟨"The Room", some "NR | 1 hr 39 min"⟩,
     viewHref := some (some "view.aspx?id=1"),
     blocks := [
       { dateText := some "Fri, Oct 17",
         timeTexts := ["11:30 PM", "7:00 PM"] },
       { dateText := none, timeTexts := ["1:00 PM"] }] }]

/-- A Drexel world with one item. -/
def drxA : DWorld where
  page := some drxA_items

/-- A second Drexel world, differing from `drxA`. -/
def drxB : DWorld where
  page := some [
    { name := some ⟨"Metropolis", some "NR | 2 hr 33 min"⟩,
      viewHref := none,
      blocks := [
        { dateText := some "Wed, Jan 1", timeTexts := ["7:00 PM"] }] }]

/-- A Drexel world in which the list-page request fails. -/
def drxFail : DWorld where
  page := none

/-- A Drexel list page whose one named item has an `a.ViewLink` without an
`href` attribute. -/
def drxKeyItems : List DrexelItem :=
  [{ name := some ⟨"Broken", none⟩, viewHref := some none, blocks := [] }]

/-- A Drexel world whose page loads but aborts the unit with a `KeyError`
on the href-less `a.ViewLink`. -/
def drxKey : DWorld where
  page := some drxKeyItems

/-- The movie URL shared by the two Gateway entry points in `gwA`. -/
def draculaURL : String := "https://gatewayfilmcenter.org/movies/dracula/"

/-- The listing list produced by `fetch_gateway` on `gwA`. -/
def gwA_result : List Listing :=
  [{ title := "Dracula", url := some draculaURL, runtime := some 149,
     showtimes := ["2025-10-05 11:00", "2025-10-05 19:30",
       "2025-10-07 14:00 (4K)", "2025-10-07 21:15"] }]

/-- The record collected for `draculaURL` from the upcoming-films page of `gwA`. -/
def gwA_upRec : GRec :=
  { title := "Dracula", url := some draculaURL, runtime := some 149,
    showtimes := ["2025-10-05 19:30", "2025-10-07 14:00 (4K)",
      "2025-10-07 21:15"] }

/-- The record collected for `draculaURL` from the homepage of `gwA`. -/
def gwA_homeRec : GRec :=
  { title := "Dracula", url := some draculaURL, runtime := some 149,
    showtimes := ["2025-10-05 11:00"] }

/-- The listing list produced by `fetch_studio35 2025` on `s35A`. -/
def s35A_result : List Listing :=
  [{ title := "Rocky Horror",
     url := some "https://studio35.com/movie/rocky-horror",
     runtime := some 100,
     showtimes := ["2025-10-30 21:00", "2025-10-31 23:55"] }]

/-- The listing list produced by `fetch_studio35 2025` on `s35B`. -/
def s35B_result : List Listing :=
  [{ title := "Eraserhead",
     url := some "https://studio35.com/movie/eraserhead",
     runtime := none,
     showtimes := ["2025-11-02 19:00"] }]

/-- The listing list produced by `fetch_drexel 2025` on `drxA`. -/
def drxA_result : List Listing :=
  [{ title := "The Room",
     url := some "https://prod1.agileticketing.net/websales/pages/view.aspx?id=1",
     runtime := some 99,
     showtimes := ["2025-10-17 19:00", "2025-10-17 23:30"] }]

/-- The listing list produced by `fetch_drexel 2025` on `drxB`. -/
def drxB_result : List Listing :=
  [{ title := "Metropolis", url := none, runtime := some 153,
     showtimes := ["2025-01-01 19:00"] }]

/-- The combined document for the run on `gwA`, `s35A`, `drxA`. -/
def cinDocA : List (String × List Listing) :=
  [("gateway", gwA_result), ("studio35", s35A_result),
   ("drexel", drxA_result)]

/-- The combined document for the run on `gwA`, `s35B`, `drxB`. -/
def cinDocB : List (String × List Listing) :=
  [("gateway", gwA_result), ("studio35", s35B_result),
   ("drexel", drxB_result)]

/-! ## Lemmas: folds and canonical sets -/

/-- Invariant preservation along `List.foldl`. -/
theorem foldl_induction {α β : Type} (f : β → α → β) (P : β → Prop) :
    ∀ (l : List α) (init : β), P init →
      (∀ b a, a ∈ l → P b → P (f b a)) → P (l.foldl f init)
  | [], _, h0, _ => h0
  | a :: l, init, h0, hstep =>
      foldl_induction f P l (f init a) (hstep init a (by simp) h0)
        (fun b x hx hb => hstep b x (by simp [hx]) hb)

theorem mem_insertStr (x a : String) :
    ∀ (l : List String), a ∈ insertStr x l ↔ a = x ∨ a ∈ l
  | [] => by simp [insertStr]
  | y :: ys => by
      rw [insertStr]
      cases strLtDec x y with
      | isTrue h => simp [List.mem_cons]
      | isFalse h =>
          by_cases hxy : x = y
          · subst hxy
            simp [List.mem_cons]
          · simp only [if_neg hxy, List.mem_cons, mem_insertStr x a ys]
            tauto

theorem pairwise_insertStr (x : String) :
    ∀ (l : List String), l.Pairwise (· < ·) →
      (insertStr x l).Pairwise (· < ·)
  | [], _ => by simp [insertStr]
  | y :: ys, hp => by
      rw [List.pairwise_cons] at hp
      obtain ⟨hy, hys⟩ := hp
      rw [insertStr]
      cases strLtDec x y with
      | isTrue h =>
          refine List.pairwise_cons.mpr ⟨?_, List.pairwise_cons.mpr ⟨hy, hys⟩⟩
          intro b hb
          rcases List.mem_cons.mp hb with rfl | hb
          · exact h
          · exact lt_trans h (hy b hb)
      | isFalse h =>
          by_cases hxy : x = y
          · subst hxy
            simp only [if_pos rfl]
            exact List.pairwise_cons.mpr ⟨hy, hys⟩
          · have hyx : y < x := by
              rcases lt_trichotomy x y with h1 | h1 | h1
              · exact absurd h1 h
              · exact absurd h1 hxy
              · exact h1
            simp only [if_neg hxy]
            refine List.pairwise_cons.mpr ⟨?_, pairwise_insertStr x ys hys⟩
            intro b hb
            rcases (mem_insertStr x b ys).mp hb with rfl | hb
            · exact hyx
            · exact hy b hb

theorem pySetOfList_eq_union (l : List String) :
    pySetOfList l = pySetUnionList [] l := rfl

theorem mem_pySetUnionList (a : String) :
    ∀ (l s : List String), a ∈ pySetUnionList s l ↔ a ∈ s ∨ a ∈ l
  | [], s => by simp [pySetUnionList]
  | x :: l, s => by
      show a ∈ pySetUnionList (insertStr x s) l ↔ _
      rw [mem_pySetUnionList a l (insertStr x s), mem_insertStr]
      simp [List.mem_cons]
      tauto

theorem mem_pySetOfList (a : String) (l : List String) :
    a ∈ pySetOfList l ↔ a ∈ l := by
  rw [pySetOfList_eq_union, mem_pySetUnionList]
  simp

theorem pairwise_pySetUnionList (l s : List String)
    (hs : s.Pairwise (· < ·)) : (pySetUnionList s l).Pairwise (· < ·) :=
  foldl_induction _ _ l s hs (fun b x _ hb => pairwise_insertStr x b hb)

theorem pairwise_pySetOfList (l : List String) :
    (pySetOfList l).Pairwise (· < ·) := by
  rw [pySetOfList_eq_union]
  exact pairwise_pySetUnionList l [] (by simp)

theorem sorted_of_pairwise_lt {l : List String} (h : l.Pairwise (· < ·)) :
    l.Sorted (· ≤ ·) :=
  h.imp le_of_lt

theorem nodup_of_pairwise_lt {l : List String} (h : l.Pairwise (· < ·)) :
    l.Nodup :=
  h.imp ne_of_lt

/-! ## Lemmas: lexicographic order of timestamps is chronological -/

theorem lexConsIff {α : Type} {r : α → α → Prop} {a b : α} {l m : List α} :
    List.Lex r (a :: l) (b :: m) ↔ r a b ∨ (a = b ∧ List.Lex r l m) := by
  constructor
  · intro h
    cases h with
    | rel h => exact Or.inl h
    | cons h => exact Or.inr ⟨rfl, h⟩
  · rintro (h | ⟨rfl, h⟩)
    · exact List.Lex.rel h
    · exact List.Lex.cons h

theorem lexAppendIff {r : Char → Char → Prop} :
    ∀ {l1 m1 : List Char}, l1.length = m1.length → ∀ (l2 m2 : List Char),
      (List.Lex r (l1 ++ l2) (m1 ++ m2) ↔
        List.Lex r l1 m1 ∨ (l1 = m1 ∧ List.Lex r l2 m2))
  | [], [], _, l2, m2 => by
      constructor
      · intro h
        exact Or.inr ⟨rfl, h⟩
      · rintro (h | ⟨-, h⟩)
        · exact absurd h (List.Lex.not_nil_right r [])
        · exact h
  | [], _ :: _, h, _, _ => by simp at h
  | _ :: _, [], h, _, _ => by simp at h
  | a :: l1, b :: m1, h, l2, m2 => by
      simp only [List.cons_append, lexConsIff, List.cons.injEq]
      rw [lexAppendIff (by simpa using h) l2 m2]
      tauto

theorem digitChar48_lt_iff :
    ∀ u, u < 10 → ∀ v, v < 10 → (digitChar48 u < digitChar48 v ↔ u < v) := by
  decide

theorem digitChar48_eq_iff :
    ∀ u, u < 10 → ∀ v, v < 10 → (digitChar48 u = digitChar48 v ↔ u = v) := by
  decide

theorem lex_pad2_iff {x y : Nat} (hx : x < 100) (hy : y < 100) :
    (List.Lex (· < ·) (pad2 x) (pad2 y) ↔ x < y) := by
  unfold pad2
  rw [lexConsIff, lexConsIff]
  have h5 : ¬ List.Lex (· < ·) ([] : List Char) [] :=
    List.Lex.not_nil_right _ _
  simp only [digitChar48_lt_iff (x / 10) (by omega) (y / 10) (by omega),
    digitChar48_eq_iff (x / 10) (by omega) (y / 10) (by omega),
    digitChar48_lt_iff (x % 10) (by omega) (y % 10) (by omega),
    digitChar48_eq_iff (x % 10) (by omega) (y % 10) (by omega),
    iff_false_intro h5, and_false, or_false]
  omega

theorem pad2_eq_iff {x y : Nat} (hx : x < 100) (hy : y < 100) :
    (pad2 x = pad2 y ↔ x = y) := by
  unfold pad2
  simp only [List.cons.injEq, and_true,
    digitChar48_eq_iff (x / 10) (by omega) (y / 10) (by omega),
    digitChar48_eq_iff (x % 10) (by omega) (y % 10) (by omega)]
  omega

theorem lex_pad2_append_iff {x y : Nat} (hx : x < 100) (hy : y < 100)
    (l m : List Char) :
    (List.Lex (· < ·) (pad2 x ++ l) (pad2 y ++ m) ↔
      x < y ∨ (x = y ∧ List.Lex (· < ·) l m)) := by
  rw [lexAppendIff (by rfl) l m, lex_pad2_iff hx hy, pad2_eq_iff hx hy]

theorem mkTimestamp_data (dt : PyDateTime) :
    (mkTimestamp dt).data =
      pad2 (dt.year / 100) ++ (pad2 (dt.year % 100) ++ ('-' ::
        (pad2 dt.month ++ ('-' :: (pad2 dt.day ++ (' ' ::
          (pad2 dt.hour ++ (':' :: pad2 dt.minute)))))))) := by
  simp [mkTimestamp, strftimeYmd, strftimeHM, pad4, String.data_append]

/-- Lexicographic comparison of two canonical timestamps is chronological
comparison of the underlying datetimes. -/
theorem mkTimestamp_lt_iff {a b : PyDateTime} (ha : tsValid a)
    (hb : tsValid b) :
    (mkTimestamp a < mkTimestamp b ↔ chronoKey a < chronoKey b) := by
  obtain ⟨ha1, ha2, ha3, ha4, ha5, ha6, ha7, ha8⟩ := ha
  obtain ⟨hb1, hb2, hb3, hb4, hb5, hb6, hb7, hb8⟩ := hb
  rw [String.lt_iff_toList_lt]
  show List.Lex (· < ·) (mkTimestamp a).data (mkTimestamp b).data ↔ _
  rw [mkTimestamp_data, mkTimestamp_data,
    lex_pad2_append_iff (by omega) (by omega),
    lex_pad2_append_iff (by omega) (by omega),
    List.Lex.cons_iff,
    lex_pad2_append_iff (by omega) (by omega),
    List.Lex.cons_iff,
    lex_pad2_append_iff (by omega) (by omega),
    List.Lex.cons_iff,
    lex_pad2_append_iff (by omega) (by omega),
    List.Lex.cons_iff,
    lex_pad2_iff (by omega) (by omega)]
  unfold chronoKey
  omega

theorem mkTimestamp_le_iff {a b : PyDateTime} (ha : tsValid a)
    (hb : tsValid b) :
    (mkTimestamp a ≤ mkTimestamp b ↔ chronoKey a ≤ chronoKey b) := by
  rw [show (mkTimestamp a ≤ mkTimestamp b) ↔ ¬ mkTimestamp b < mkTimestamp a
      from not_lt.symm,
    mkTimestamp_lt_iff hb ha]
  omega

/-! ## Lemmas: bounds of the time parsers -/

theorem parse12Hour_bounds :
    ∀ (cs : List Char) {h : Nat} {r : List Char},
      parse12Hour cs = some (h, r) → 1 ≤ h ∧ h ≤ 12
  | [], _, _, hp => Option.noConfusion hp
  | [c1], h, r, hp => by
      simp only [parse12Hour] at hp
      split_ifs at hp with h1
      simp only [Option.some.injEq, Prod.mk.injEq] at hp
      obtain ⟨rfl, rfl⟩ := hp
      have d1 : (49 : Nat) ≤ c1.toNat := h1.1
      have d2 : c1.toNat ≤ (57 : Nat) := h1.2
      unfold digitVal
      omega
  | c1 :: c2 :: rest, h, r, hp => by
      simp only [parse12Hour] at hp
      split_ifs at hp with h1 h2 h3 <;>
        simp only [Option.some.injEq, Prod.mk.injEq] at hp <;>
        obtain ⟨rfl, rfl⟩ := hp
      · have d1 : (48 : Nat) ≤ c2.toNat := h1.2.1
        have d2 : c2.toNat ≤ (50 : Nat) := h1.2.2
        unfold digitVal
        omega
      · have d1 : (49 : Nat) ≤ c2.toNat := h2.2.1
        have d2 : c2.toNat ≤ (57 : Nat) := h2.2.2
        unfold digitVal
        omega
      · have d1 : (49 : Nat) ≤ c1.toNat := h3.1
        have d2 : c1.toNat ≤ (57 : Nat) := h3.2
        unfold digitVal
        omega

theorem isDigit_toNat {c : Char} (h : c.isDigit = true) :
    48 ≤ c.toNat ∧ c.toNat ≤ 57 := by
  rw [Char.isDigit] at h
  simp only [Bool.and_eq_true, decide_eq_true_eq] at h
  exact h

theorem parseMinute_bounds :
    ∀ (cs : List Char) {m : Nat} {r : List Char},
      parseMinute cs = some (m, r) → m ≤ 59
  | [], _, _, hp => Option.noConfusion hp
  | [c1], m, r, hp => by
      simp only [parseMinute] at hp
      split_ifs at hp with h1
      simp only [Option.some.injEq, Prod.mk.injEq] at hp
      obtain ⟨rfl, rfl⟩ := hp
      obtain ⟨d1, d2⟩ := isDigit_toNat h1
      unfold digitVal
      omega
  | c1 :: c2 :: rest, m, r, hp => by
      simp only [parseMinute] at hp
      split_ifs at hp with h1 h2 <;>
        simp only [Option.some.injEq, Prod.mk.injEq] at hp <;>
        obtain ⟨rfl, rfl⟩ := hp
      · have d1 : (48 : Nat) ≤ c1.toNat := h1.1
        have d2 : c1.toNat ≤ (53 : Nat) := h1.2.1
        obtain ⟨d3, d4⟩ := isDigit_toNat h1.2.2
        unfold digitVal
        omega
      · obtain ⟨d3, d4⟩ := isDigit_toNat h2
        unfold digitVal
        omega

theorem hour24_le {h12 : Nat} (pm : Bool) (h1 : 1 ≤ h12) (h2 : h12 ≤ 12) :
    hour24 h12 pm ≤ 23 := by
  unfold hour24
  split_ifs <;> omega

theorem strptimeIMp_bounds {t : String} {h m : Nat} {pm : Bool}
    (hp : strptimeIMp t = some (h, m, pm)) : 1 ≤ h ∧ h ≤ 12 ∧ m ≤ 59 := by
  unfold strptimeIMp at hp
  split at hp
  · exact Option.noConfusion hp
  · rename_i h0 r1 heq1
    split at hp
    · exact Option.noConfusion hp
    · split at hp
      · exact Option.noConfusion hp
      · rename_i m0 r3 heq2
        split at hp
        · exact Option.noConfusion hp
        · split at hp
          · rename_i pm0 heq3
            simp only [Option.some.injEq, Prod.mk.injEq] at hp
            obtain ⟨rfl, rfl, rfl⟩ := hp
            obtain ⟨b1, b2⟩ := parse12Hour_bounds _ heq1
            exact ⟨b1, b2, parseMinute_bounds _ heq2⟩
          · exact Option.noConfusion hp

theorem strptimeIp_bounds {t : String} {h : Nat} {pm : Bool}
    (hp : strptimeIp t = some (h, pm)) : 1 ≤ h ∧ h ≤ 12 := by
  unfold strptimeIp at hp
  split at hp
  · exact Option.noConfusion hp
  · rename_i h0 r1 heq1
    split at hp
    · exact Option.noConfusion hp
    · split at hp
      · rename_i pm0 heq2
        simp only [Option.some.injEq, Prod.mk.injEq] at hp
        obtain ⟨rfl, rfl⟩ := hp
        exact parse12Hour_bounds _ heq1
      · exact Option.noConfusion hp

/-- Every 24-hour string produced by `parse_time_12h_to_24h` is
`strftimeHM h m` for a valid hour and minute. -/
theorem parse_time_shape {t : Option String} {s : String}
    (hp : parse_time_12h_to_24h t = some s) :
    ∃ h m, h ≤ 23 ∧ m ≤ 59 ∧ s = strftimeHM h m := by
  simp only [parse_time_12h_to_24h] at hp
  split at hp
  · rename_i h12 m pm hm
    simp only [Option.some.injEq] at hp
    obtain ⟨b1, b2, b3⟩ := strptimeIMp_bounds hm
    exact ⟨hour24 h12 pm, m, hour24_le pm b1 b2, b3, hp.symm⟩
  · split at hp
    · rename_i h12 pm hm
      simp only [Option.some.injEq] at hp
      obtain ⟨b1, b2⟩ := strptimeIp_bounds hm
      exact ⟨hour24 h12 pm, 0, hour24_le pm b1 b2, by omega, hp.symm⟩
    · exact Option.noConfusion hp

/-! ## Lemmas: validity of constructed datetimes -/

theorem daysInMonth_le (y mo : Nat) : daysInMonth y mo ≤ 31 := by
  unfold daysInMonth
  split_ifs <;> omega

theorem mkDateTimeChecked_valid {y mo d h mi : Nat} {dt : PyDateTime}
    (hp : mkDateTimeChecked y mo d h mi = some dt) : tsValid dt := by
  unfold mkDateTimeChecked at hp
  split_ifs at hp with hc
  simp only [Option.some.injEq] at hp
  subst hp
  have := daysInMonth_le y mo
  unfold tsValid
  dsimp only
  omega

theorem ifSomeInv {α : Type} {P : Prop} [Decidable P] {a b : α}
    (h : (if P then some a else none) = some b) : P ∧ a = b := by
  split at h
  · exact ⟨by assumption, (Option.some.injEq a b).mp h⟩
  · exact Option.noConfusion h

theorem pyFromtimestamp_valid {t : Int} {dt : PyDateTime}
    (hp : pyFromtimestamp t = some dt) : tsValid dt := by
  simp only [pyFromtimestamp] at hp
  obtain ⟨hc, h2⟩ := ifSomeInv hp
  subst h2
  exact hc

theorem strptimeStudio35_valid {text : String} {y : Nat} {dt : PyDateTime}
    (hp : strptimeStudio35 text y = some dt) : tsValid dt := by
  simp only [strptimeStudio35] at hp
  repeat' (first
    | exact Option.noConfusion hp
    | exact mkDateTimeChecked_valid hp
    | split at hp)

theorem strptimeDrexel_valid {s : String} {y : Nat} {dt : PyDateTime}
    (hp : strptimeDrexel s y = some dt) : tsValid dt := by
  simp only [strptimeDrexel] at hp
  repeat' (first
    | exact Option.noConfusion hp
    | exact mkDateTimeChecked_valid hp
    | split at hp)

/-! ## Lemmas: association lists -/

theorem alookup_cons {α : Type} (k0 : String) (v0 : α)
    (m : List (String × α)) (k : String) :
    alookup ((k0, v0) :: m) k = if k0 = k then some v0 else alookup m k := by
  unfold alookup
  rw [List.find?_cons]
  by_cases h : k0 = k <;> simp [h]

theorem alookup_dictAssign {α : Type} (k k' : String) (v : α) :
    ∀ (m : List (String × α)),
      alookup (dictAssign m k v) k' =
        if k = k' then some v else alookup m k'
  | [] => by
      unfold dictAssign
      rw [alookup_cons]
  | (k0, v0) :: m => by
      unfold dictAssign
      by_cases h0 : k0 = k
      · simp only [if_pos h0]
        rw [alookup_cons, alookup_cons]
        subst h0
        by_cases h1 : k0 = k' <;> simp [h1]
      · simp only [if_neg h0]
        rw [alookup_cons, alookup_dictAssign k k' v m, alookup_cons]
        by_cases h1 : k0 = k'
        · subst h1
          simp only [if_pos rfl]
          by_cases h2 : k = k0
          · exact absurd h2.symm h0
          · simp [h2]
        · simp [h1]

theorem alookup_append {α : Type} (k : String) :
    ∀ (m1 m2 : List (String × α)),
      alookup (m1 ++ m2) k =
        match alookup m1 k with
        | some v => some v
        | none => alookup m2 k
  | [], m2 => by simp [alookup]
  | (k0, v0) :: m1, m2 => by
      rw [List.cons_append, alookup_cons, alookup_cons]
      by_cases h : k0 = k
      · simp [h]
      · simp only [if_neg h]
        exact alookup_append k m1 m2

theorem mem_dictAssign {α : Type} (k : String) (v : α) :
    ∀ (m : List (String × α)) (x : String × α),
      x ∈ dictAssign m k v → x = (k, v) ∨ x ∈ m
  | [], x, hx => by
      unfold dictAssign at hx
      simp at hx
      exact Or.inl hx
  | (k0, v0) :: m, x, hx => by
      unfold dictAssign at hx
      split_ifs at hx with h0
      · rcases List.mem_cons.mp hx with rfl | hx
        · exact Or.inl rfl
        · exact Or.inr (List.mem_cons.mpr (Or.inr hx))
      · rcases List.mem_cons.mp hx with rfl | hx
        · exact Or.inr (List.mem_cons.mpr (Or.inl rfl))
        · rcases mem_dictAssign k v m x hx with h | h
          · exact Or.inl h
          · exact Or.inr (List.mem_cons.mpr (Or.inr h))

theorem alookup_some_mem {α : Type} {k : String} {v : α} :
    ∀ {m : List (String × α)}, alookup m k = some v → (k, v) ∈ m := by
  intro m
  induction m with
  | nil => intro h; cases h
  | cons kv m ih =>
      obtain ⟨k0, v0⟩ := kv
      rw [alookup_cons]
      by_cases h0 : k0 = k
      · rw [if_pos h0]
        intro h
        obtain rfl : v0 = v := Option.some_inj.mp h
        subst h0
        exact List.mem_cons_self _ _
      · simp only [if_neg h0]
        intro h
        exact List.mem_cons.mpr (Or.inr (ih h))

/-- Keys of a dict after assignment: unchanged when present, extended by the
new key when absent. -/
theorem keys_dictAssign_absent {α : Type} (k : String) (v : α) :
    ∀ (m : List (String × α)), alookup m k = none →
      dictAssign m k v = m ++ [(k, v)]
  | [], _ => rfl
  | (k0, v0) :: m, h => by
      rw [alookup_cons] at h
      by_cases h0 : k0 = k
      · simp [h0] at h
      · simp only [if_neg h0] at h
        unfold dictAssign
        simp only [if_neg h0, List.cons_append, List.cons.injEq, true_and]
        exact keys_dictAssign_absent k v m h

theorem map_fst_dictAssign_present {α : Type} (k : String) (v : α) :
    ∀ (m : List (String × α)) {w : α}, alookup m k = some w →
      (dictAssign m k v).map Prod.fst = m.map Prod.fst
  | [], _, h => by cases h
  | (k0, v0) :: m, w, h => by
      rw [alookup_cons] at h
      unfold dictAssign
      by_cases h0 : k0 = k
      · subst h0
        simp
      · simp only [if_neg h0] at h ⊢
        simp only [List.map_cons, List.cons.injEq, true_and]
        exact map_fst_dictAssign_present k v m h

/-! ## Lemmas: shapes of Gateway showtime strings -/

theorem gatewayDateMap_valid (dateLis : List String) :
    ∀ k d, alookup (gatewayDateMap dateLis) k = some d → tsValid d := by
  unfold gatewayDateMap
  refine foldl_induction _ (fun acc => ∀ k d, alookup acc k = some d → tsValid d)
    dateLis [] (by intro k d h; cases h) ?_
  intro acc li _ hacc k d
  dsimp only
  split
  · exact hacc k d
  · split
    · exact hacc k d
    · split
      · exact hacc k d
      · rename_i n _ d0 hd0
        rw [alookup_dictAssign]
        split_ifs with hk
        · intro h
          obtain rfl : d0 = d := Option.some_inj.mp h
          exact pyFromtimestamp_valid hd0
        · exact hacc k d

theorem gatewayEntry_shape {d : PyDateTime} {h m : Nat}
    (hd : tsValid d) (hh : h ≤ 23) (hm : m ≤ 59) (ol : Option String) :
    GShape (gatewayEntry d (strftimeHM h m) ol) := by
  refine ⟨⟨d.year, d.month, d.day, h, m⟩, ol, ?_, rfl⟩
  obtain ⟨h1, h2, h3, h4, h5, h6, -, -⟩ := hd
  exact ⟨h1, h2, h3, h4, h5, h6, hh, hm⟩

theorem gatewayShowsUpcoming_shape (dm : List (String × PyDateTime))
    (hdm : ∀ k d, alookup dm k = some d → tsValid d) (tl : List GTimeLi) :
    ∀ s ∈ gatewayShowsUpcoming dm tl, GShape s := by
  unfold gatewayShowsUpcoming
  refine foldl_induction _ (fun acc => ∀ s ∈ acc, GShape s) tl []
    (by intro s h; cases h) ?_
  intro acc li _ hacc s
  dsimp only
  split
  · exact hacc s
  · rename_i d hd
    split
    · exact hacc s
    · split
      · exact hacc s
      · rename_i a t24 ht
        intro hs
        rcases List.mem_append.mp hs with hs | hs
        · exact hacc s hs
        · obtain rfl : s = _ := List.mem_singleton.mp hs
          obtain ⟨h, m, hh, hm, rfl⟩ := parse_time_shape ht
          exact gatewayEntry_shape (hdm _ _ hd) hh hm _

theorem gatewayShowsHomepage_shape (dm : List (String × PyDateTime))
    (hdm : ∀ k d, alookup dm k = some d → tsValid d) (tl : List GTimeLi) :
    ∀ s ∈ gatewayShowsHomepage dm tl, GShape s := by
  unfold gatewayShowsHomepage
  refine foldl_induction _ (fun acc => ∀ s ∈ acc, GShape s) tl []
    (by intro s h; cases h) ?_
  intro acc li _ hacc s
  dsimp only
  split
  · exact hacc s
  · rename_i d hd
    split
    · exact hacc s
    · split
      · exact hacc s
      · rename_i a t24 ht
        intro hs
        rcases List.mem_append.mp hs with hs | hs
        · exact hacc s hs
        · obtain rfl : s = _ := List.mem_singleton.mp hs
          obtain ⟨h, m, hh, hm, rfl⟩ := parse_time_shape ht
          exact gatewayEntry_shape (hdm _ _ hd) hh hm _

theorem showtimes_from_block_shape (b : GUBlock) :
    ∀ s ∈ showtimes_from_block b, GShape s := by
  intro s hs
  rw [showtimes_from_block, mem_pySetOfList] at hs
  exact gatewayShowsUpcoming_shape _ (gatewayDateMap_valid b.dateLis) _ s hs

/-! ## Lemmas: collector invariants -/

theorem alookup_eq_none_iff {α : Type} (k : String) :
    ∀ (m : List (String × α)), alookup m k = none ↔ k ∉ m.map Prod.fst
  | [] => by simp [alookup]
  | (k0, v0) :: m => by
      rw [alookup_cons]
      by_cases h0 : k0 = k
      · subst h0
        simp
      · simp only [if_neg h0, List.map_cons, List.mem_cons]
        rw [alookup_eq_none_iff k m]
        constructor
        · intro h hc
          rcases hc with hc | hc
          · exact h0 hc.symm
          · exact h hc
        · intro h
          exact fun hc => h (Or.inr hc)

theorem recOK_fresh {title : String} {url : Option String}
    {shows : List String} {rt : Option Nat}
    (hs : ∀ s ∈ shows, GShape s) :
    recOK { title := title, url := url,
            showtimes := pySetUnionList [] shows, runtime := rt } := by
  constructor
  · exact pairwise_pySetUnionList shows [] (by simp)
  · intro s hsm
    rcases (mem_pySetUnionList s shows []).mp hsm with h | h
    · cases h
    · exact hs s h

theorem recOK_union {old : GRec} {shows : List String} {rt : Option Nat}
    (hold : recOK old) (hs : ∀ s ∈ shows, GShape s) :
    recOK { old with
            showtimes := pySetUnionList old.showtimes shows,
            runtime := rt } := by
  constructor
  · exact pairwise_pySetUnionList shows old.showtimes hold.1
  · intro s hsm
    rcases (mem_pySetUnionList s shows old.showtimes).mp hsm with h | h
    · exact hold.2 s h
    · exact hs s h

theorem recOK_runtime {r : GRec} (h : recOK r) (rt : Option Nat) :
    recOK { r with runtime := rt } := h

theorem upcomingInsert_outOK {out : List (String × GRec)}
    (key title : String) (link : Option String) (rt : Option Nat)
    {shows : List String} (hout : outOK out)
    (hs : ∀ s ∈ shows, GShape s) :
    outOK (upcomingInsert out key title link rt shows) := by
  unfold upcomingInsert
  split
  · intro kv hkv
    rcases List.mem_append.mp hkv with h | h
    · exact hout kv h
    · obtain rfl : kv = _ := List.mem_singleton.mp h
      dsimp only
      split
      · exact recOK_fresh hs
      · exact recOK_fresh hs
  · rename_i old hold
    have holdOK : recOK old := hout _ (alookup_some_mem hold)
    intro kv hkv
    rcases mem_dictAssign _ _ _ _ hkv with rfl | h
    · dsimp only
      split
      · exact recOK_union holdOK hs
      · exact recOK_union holdOK hs
    · exact hout kv h

theorem upcomingStep_outOK (orac : String → Option Nat)
    (st : GCollectState) (b : GUBlock) (hst : outOK st.out) :
    outOK (upcomingStep orac st b).out := by
  unfold upcomingStep
  split
  · exact hst
  · exact upcomingInsert_outOK _ _ _ _ hst (showtimes_from_block_shape b)

theorem collect_from_upcoming_outOK (w : GWorld) :
    outOK (collect_from_upcoming w).out := by
  unfold collect_from_upcoming
  split
  · intro kv h; cases h
  · rename_i blocks _
    have base : outOK (⟨[], [], []⟩ : GCollectState).out := by
      intro kv h; cases h
    exact foldl_induction _ (fun st => outOK st.out) blocks _ base
      (fun st b _ hst => upcomingStep_outOK w.runtimeOf st b hst)

theorem upcomingInsert_keysOK {out : List (String × GRec)}
    {key title : String} {link : Option String} (rt : Option Nat)
    (shows : List String) (hout : keysOK out)
    (hkey : key = pyOrStr link title) :
    keysOK (upcomingInsert out key title link rt shows) := by
  unfold upcomingInsert
  split
  · intro kv hkv
    rcases List.mem_append.mp hkv with h | h
    · exact hout kv h
    · obtain rfl : kv = _ := List.mem_singleton.mp h
      dsimp only
      split <;> exact hkey
  · rename_i old hold
    have hko : key = pyOrStr old.url old.title :=
      hout _ (alookup_some_mem hold)
    intro kv hkv
    rcases mem_dictAssign _ _ _ _ hkv with rfl | h
    · dsimp only
      split <;> exact hko
    · exact hout kv h

theorem upcomingInsert_keysNodup {out : List (String × GRec)}
    (key title : String) (link : Option String) (rt : Option Nat)
    (shows : List String) (hnd : (out.map Prod.fst).Nodup) :
    ((upcomingInsert out key title link rt shows).map Prod.fst).Nodup := by
  unfold upcomingInsert
  split
  · rename_i hnone
    have hk : key ∉ out.map Prod.fst := (alookup_eq_none_iff key out).mp hnone
    simp only [List.map_append, List.map_cons, List.map_nil]
    simp [List.nodup_append, hnd, hk]
  · rename_i old hold
    rwa [map_fst_dictAssign_present _ _ _ hold]

theorem upcomingStep_keysOK (orac : String → Option Nat)
    (st : GCollectState) (b : GUBlock) (hst : keysOK st.out) :
    keysOK (upcomingStep orac st b).out := by
  unfold upcomingStep
  split
  · exact hst
  · exact upcomingInsert_keysOK _ _ hst rfl

theorem upcomingStep_keysNodup (orac : String → Option Nat)
    (st : GCollectState) (b : GUBlock)
    (hst : (st.out.map Prod.fst).Nodup) :
    ((upcomingStep orac st b).out.map Prod.fst).Nodup := by
  unfold upcomingStep
  split
  · exact hst
  · exact upcomingInsert_keysNodup _ _ _ _ _ hst

theorem collect_from_upcoming_keysOK (w : GWorld) :
    keysOK (collect_from_upcoming w).out := by
  unfold collect_from_upcoming
  split
  · intro kv h; cases h
  · rename_i blocks _
    have base : keysOK (⟨[], [], []⟩ : GCollectState).out := by
      intro kv h; cases h
    exact foldl_induction _ (fun st => keysOK st.out) blocks _ base
      (fun st b _ hst => upcomingStep_keysOK w.runtimeOf st b hst)

theorem collect_from_upcoming_keysNodup (w : GWorld) :
    (((collect_from_upcoming w).out).map Prod.fst).Nodup := by
  unfold collect_from_upcoming
  split
  · simp
  · rename_i blocks _
    have base : (((⟨[], [], []⟩ : GCollectState).out).map Prod.fst).Nodup := by
      simp
    exact foldl_induction _ (fun st => (st.out.map Prod.fst).Nodup) blocks _
      base
      (fun st b _ hst => upcomingStep_keysNodup w.runtimeOf st b hst)

theorem homepageLinks_ne_empty (hp : GHomePage) :
    ∀ murl ∈ homepageLinks hp, murl ≠ "" := by
  intro murl hm
  unfold homepageLinks at hm
  dsimp only at hm
  split at hm <;>
    · rw [mem_pySetOfList] at hm
      exact of_decide_eq_true (List.mem_filter.mp hm).2

theorem homepageStep_invariants (w : GWorld)
    (st : List (String × GRec) × List String) (murl : String)
    (hmurl : murl ≠ "")
    (hOK : outOK st.1) (hK : keysOK st.1)
    (hN : (st.1.map Prod.fst).Nodup) :
    outOK (homepageStep w st murl).1 ∧ keysOK (homepageStep w st murl).1 ∧
      (((homepageStep w st murl).1.map Prod.fst).Nodup) := by
  unfold homepageStep
  split
  · exact ⟨hOK, hK, hN⟩
  · rename_i page hpage
    dsimp only
    refine ⟨?_, ?_, ?_⟩
    · intro kv hkv
      rcases mem_dictAssign _ _ _ _ hkv with rfl | h
      · constructor
        · exact pairwise_pySetOfList _
        · intro s hs
          rw [mem_pySetOfList] at hs
          exact gatewayShowsHomepage_shape _
            (gatewayDateMap_valid page.dateLis) _ s hs
      · exact hOK kv h
    · intro kv hkv
      rcases mem_dictAssign _ _ _ _ hkv with rfl | h
      · simp [pyOrStr, hmurl]
      · exact hK kv h
    · cases hl : alookup st.1 murl with
      | none =>
          rw [keys_dictAssign_absent _ _ _ hl]
          have hk : murl ∉ st.1.map Prod.fst :=
            (alookup_eq_none_iff murl st.1).mp hl
          simp only [List.map_append, List.map_cons, List.map_nil]
          simp [List.nodup_append, hN, hk]
      | some old =>
          rwa [map_fst_dictAssign_present _ _ _ hl]

theorem collect_from_homepage_invariants (w : GWorld) :
    outOK (collect_from_homepage w).1 ∧ keysOK (collect_from_homepage w).1 ∧
      (((collect_from_homepage w).1.map Prod.fst).Nodup) := by
  unfold collect_from_homepage
  split
  · refine ⟨?_, ?_, by simp⟩ <;> (intro kv h; cases h)
  · rename_i hp _
    have base : outOK (([], []) : List (String × GRec) × List String).1 ∧
        keysOK (([], []) : List (String × GRec) × List String).1 ∧
        (((([], []) : List (String × GRec) × List String).1.map
          Prod.fst).Nodup) := by
      refine ⟨?_, ?_, by simp⟩ <;> (intro kv h; cases h)
    refine foldl_induction _
      (fun (st : List (String × GRec) × List String) =>
        outOK st.1 ∧ keysOK st.1 ∧ ((st.1.map Prod.fst).Nodup))
      (homepageLinks hp) _ base ?_
    rintro st murl hmem ⟨h1, h2, h3⟩
    exact homepageStep_invariants w st murl
      (homepageLinks_ne_empty hp murl hmem) h1 h2 h3

/-! ## Lemmas: the merge phase -/

theorem alookup_mergeStep (m : List (String × GRec)) (k : String) (v : GRec)
    (k' : String) :
    alookup (mergeStep m (k, v)) k' =
      if k = k' then some (mergeCombine (alookup m k) v)
      else alookup m k' := by
  unfold mergeStep
  cases hm : alookup m k with
  | none =>
      simp only [hm]
      rw [alookup_append]
      by_cases hk : k = k'
      · subst hk
        rw [hm, alookup_cons]
        simp
      · rw [alookup_cons, if_neg hk, if_neg hk]
        cases alookup m k' <;> rfl
  | some old =>
      simp only [hm]
      rw [alookup_dictAssign]

theorem mergeStep_outOK (m : List (String × GRec)) (kv : String × GRec)
    (hm : outOK m) (hv : recOK kv.2) : outOK (mergeStep m kv) := by
  obtain ⟨k, v⟩ := kv
  unfold mergeStep
  dsimp only
  split
  · intro kv2 hkv2
    rcases List.mem_append.mp hkv2 with h | h
    · exact hm kv2 h
    · obtain rfl : kv2 = _ := List.mem_singleton.mp h
      exact recOK_fresh hv.2
  · rename_i old hold
    have holdOK : recOK old := hm _ (alookup_some_mem hold)
    intro kv2 hkv2
    rcases mem_dictAssign _ _ _ _ hkv2 with rfl | h
    · exact recOK_union holdOK hv.2
    · exact hm kv2 h

theorem mergeStep_keysOK (m : List (String × GRec)) (kv : String × GRec)
    (hm : keysOK m) (hv : kv.1 = pyOrStr kv.2.url kv.2.title) :
    keysOK (mergeStep m kv) := by
  obtain ⟨k, v⟩ := kv
  unfold mergeStep
  dsimp only
  split
  · intro kv2 hkv2
    rcases List.mem_append.mp hkv2 with h | h
    · exact hm kv2 h
    · obtain rfl : kv2 = _ := List.mem_singleton.mp h
      exact hv
  · rename_i old hold
    have hko := hm _ (alookup_some_mem hold)
    intro kv2 hkv2
    rcases mem_dictAssign _ _ _ _ hkv2 with rfl | h
    · exact hko
    · exact hm kv2 h

theorem mergeStep_keysNodup (m : List (String × GRec)) (kv : String × GRec)
    (hm : (m.map Prod.fst).Nodup) : ((mergeStep m kv).map Prod.fst).Nodup := by
  obtain ⟨k, v⟩ := kv
  unfold mergeStep
  dsimp only
  split
  · rename_i hnone
    have hk : k ∉ m.map Prod.fst := (alookup_eq_none_iff k m).mp hnone
    simp only [List.map_append, List.map_cons, List.map_nil]
    simp [List.nodup_append, hm, hk]
  · rename_i old hold
    rwa [map_fst_dictAssign_present _ _ _ hold]

theorem alookup_foldl_mergeStep_of_none {k : String} :
    ∀ (xs : List (String × GRec)) (m : List (String × GRec)),
      (∀ kv ∈ xs, kv.1 ≠ k) →
      alookup (xs.foldl mergeStep m) k = alookup m k
  | [], m, _ => rfl
  | (k0, v0) :: xs, m, h => by
      rw [List.foldl_cons,
        alookup_foldl_mergeStep_of_none xs _ (fun kv hkv => h kv (by simp [hkv])),
        alookup_mergeStep]
      rw [if_neg (h (k0, v0) (by simp))]

theorem alookup_foldl_mergeStep_focus {k : String} {v : GRec}
    (m xs1 xs2 : List (String × GRec))
    (h1 : ∀ kv ∈ xs1, kv.1 ≠ k) (h2 : ∀ kv ∈ xs2, kv.1 ≠ k) :
    alookup ((xs1 ++ (k, v) :: xs2).foldl mergeStep m) k =
      some (mergeCombine (alookup m k) v) := by
  rw [List.foldl_append, List.foldl_cons,
    alookup_foldl_mergeStep_of_none xs2 _ h2,
    alookup_mergeStep, if_pos rfl,
    alookup_foldl_mergeStep_of_none xs1 m h1]

/-- Decompose a dict with distinct keys around a key it binds. -/
theorem alookup_split {α : Type} {k : String} {v : α} :
    ∀ {m : List (String × α)}, alookup m k = some v →
      (m.map Prod.fst).Nodup →
      ∃ m1 m2, m = m1 ++ (k, v) :: m2 ∧ (∀ kv ∈ m1, kv.1 ≠ k) ∧
        (∀ kv ∈ m2, kv.1 ≠ k) := by
  intro m
  induction m with
  | nil => intro h; cases h
  | cons kv0 m ih =>
      obtain ⟨k0, v0⟩ := kv0
      intro h hnd
      rw [alookup_cons] at h
      simp only [List.map_cons, List.nodup_cons] at hnd
      by_cases h0 : k0 = k
      · subst h0
        rw [if_pos rfl] at h
        obtain rfl : v0 = v := Option.some_inj.mp h
        refine ⟨[], m, rfl, by simp, ?_⟩
        intro kv hkv hk
        exact hnd.1 (hk ▸ List.mem_map_of_mem Prod.fst hkv)
      · rw [if_neg h0] at h
        obtain ⟨m1, m2, rfl, hm1, hm2⟩ := ih h hnd.2
        exact ⟨(k0, v0) :: m1, m2, rfl, by
          intro kv hkv
          rcases List.mem_cons.mp hkv with rfl | hkv
          · exact h0
          · exact hm1 kv hkv, hm2⟩

/-! ## Lemmas: venue-level assembly -/

theorem gateway_by_key_invariants (w : GWorld) :
    outOK (gateway_by_key w) ∧ keysOK (gateway_by_key w) ∧
      (((gateway_by_key w).map Prod.fst).Nodup) := by
  unfold gateway_by_key
  have hA1 := collect_from_upcoming_outOK w
  have hA2 := collect_from_upcoming_keysOK w
  obtain ⟨hB1, hB2, hB3⟩ := collect_from_homepage_invariants w
  have step : ∀ (part : List (String × GRec)), outOK part → keysOK part →
      ∀ (m : List (String × GRec)),
        (outOK m ∧ keysOK m ∧ ((m.map Prod.fst).Nodup)) →
        (outOK (part.foldl mergeStep m) ∧ keysOK (part.foldl mergeStep m) ∧
          (((part.foldl mergeStep m).map Prod.fst).Nodup)) := by
    intro part hp1 hp2 m hm
    refine foldl_induction mergeStep
      (fun acc => outOK acc ∧ keysOK acc ∧ ((acc.map Prod.fst).Nodup))
      part m hm ?_
    rintro acc kv hkv ⟨g1, g2, g3⟩
    exact ⟨mergeStep_outOK acc kv g1 (hp1 kv hkv),
      mergeStep_keysOK acc kv g2 (hp2 kv hkv),
      mergeStep_keysNodup acc kv g3⟩
  have base : outOK ([] : List (String × GRec)) ∧
      keysOK ([] : List (String × GRec)) ∧
      ((([] : List (String × GRec)).map Prod.fst).Nodup) := by
    refine ⟨?_, ?_, by simp⟩ <;> (intro kv h; cases h)
  exact step _ hB1 hB2 _ (step _ hA1 hA2 [] base)

theorem fetch_gateway_listing_props (w : GWorld) :
    ∀ l ∈ (fetch_gateway w).1,
      l.showtimes.Pairwise (· < ·) ∧ ∀ s ∈ l.showtimes, GShape s := by
  intro l hl
  unfold fetch_gateway at hl
  dsimp only at hl
  obtain ⟨kv, hkv, rfl⟩ := List.mem_map.mp hl
  obtain ⟨hOK, -, -⟩ := gateway_by_key_invariants w
  exact (hOK kv hkv : recOK kv.2)

theorem s35Showtimes_isTimestamp (y : Nat) (texts : List String) :
    ∀ s ∈ s35Showtimes y texts, isTimestamp s := by
  unfold s35Showtimes
  refine foldl_induction _ (fun acc => ∀ s ∈ acc, isTimestamp s) texts []
    (by intro s h; cases h) ?_
  intro acc text _ hacc s hs
  revert hs
  split
  · exact hacc s
  · rename_i dt hdt
    intro hs
    rcases List.mem_append.mp hs with h | h
    · exact hacc s h
    · obtain rfl : s = _ := List.mem_singleton.mp h
      exact ⟨dt, strptimeStudio35_valid hdt, rfl⟩

theorem s35Loop_props (y : Nat) (w : S35World) :
    ∀ (links : List String) (r : List Listing),
      s35Loop y w links = .ok r →
      ∀ l ∈ r, l.showtimes.Pairwise (· < ·) ∧
        ∀ s ∈ l.showtimes, isTimestamp s
  | [], r, hr => by
      obtain rfl : [] = r := by
        simpa [s35Loop] using hr
      intro l hl
      cases hl
  | link :: more, r, hr => by
      unfold s35Loop at hr
      dsimp only at hr
      split at hr
      · exact Except.noConfusion hr
      · rename_i pg hpg
        split at hr
        · exact Except.noConfusion hr
        · rename_i rest hrest
          simp only [Except.ok.injEq] at hr
          subst hr
          intro l hl
          rcases List.mem_cons.mp hl with rfl | hl
          · constructor
            · exact pairwise_pySetOfList _
            · intro s hs
              rw [pySetSorted, mem_pySetOfList] at hs
              exact s35Showtimes_isTimestamp y pg.showtimeTexts s hs
          · exact s35Loop_props y w more rest hrest l hl

theorem fetch_studio35_props {y : Nat} {w : S35World} {r : List Listing}
    (hr : fetch_studio35 y w = .ok r) :
    ∀ l ∈ r, l.showtimes.Pairwise (· < ·) ∧
      ∀ s ∈ l.showtimes, isTimestamp s := by
  unfold fetch_studio35 at hr
  split at hr
  · exact Except.noConfusion hr
  · exact s35Loop_props y w _ r hr

theorem drexelShowtimes_isTimestamp (y : Nat) (blocks : List DShowBlock) :
    ∀ s ∈ drexelShowtimes y blocks, isTimestamp s := by
  unfold drexelShowtimes
  refine foldl_induction _ (fun acc => ∀ s ∈ acc, isTimestamp s) blocks []
    (by intro s h; cases h) ?_
  intro acc blk _ hacc s hs
  revert hs
  split
  · exact hacc s
  · rename_i date_text hdate
    refine foldl_induction _ (fun acc2 => ∀ s2 ∈ acc2, isTimestamp s2)
      blk.timeTexts acc hacc ?_ s
    intro acc2 time_text _ hacc2 s2 hs2
    revert hs2
    split
    · exact hacc2 s2
    · rename_i dt hdt
      intro hs2
      rcases List.mem_append.mp hs2 with h | h
      · exact hacc2 s2 h
      · obtain rfl : s2 = _ := List.mem_singleton.mp h
        exact ⟨dt, strptimeDrexel_valid hdt, rfl⟩

theorem drexelLoop_props (y : Nat) :
    ∀ (items : List DrexelItem) (r : List Listing),
      drexelLoop y items = .ok r → ∀ l ∈ r,
      l.showtimes.Pairwise (· < ·) ∧ ∀ s ∈ l.showtimes, isTimestamp s
  | [], r, hr => by
      simp only [drexelLoop, Except.ok.injEq] at hr
      subst hr
      intro l hl
      cases hl
  | item :: more, r, hr => by
      unfold drexelLoop at hr
      revert hr
      split
      · exact fun hr => drexelLoop_props y more r hr
      · rename_i nm hnm
        split

        · exact fun hr => Except.noConfusion hr
        · rename_i link hlink
          split
          · exact fun hr => Except.noConfusion hr
          · rename_i rest hrest
            intro hr
            simp only [Except.ok.injEq] at hr
            subst hr
            intro l hl
            rcases List.mem_cons.mp hl with rfl | hl
            · constructor
              · exact pairwise_pySetOfList _
              · intro s hs
                rw [pySetSorted, mem_pySetOfList] at hs
                exact drexelShowtimes_isTimestamp y item.blocks s hs
            · exact drexelLoop_props y more rest hrest l hl

theorem fetch_drexel_props {y : Nat} {w : DWorld} {r : List Listing}
    (hr : fetch_drexel y w = .ok r) :
    ∀ l ∈ r, l.showtimes.Pairwise (· < ·) ∧
      ∀ s ∈ l.showtimes, isTimestamp s := by
  unfold fetch_drexel at hr
  split at hr
  · exact Except.noConfusion hr
  · exact drexelLoop_props y _ r hr

/-! ## Lemmas: decimal renderings and digit runs -/

theorem natCharsGo_stable :
    ∀ (f1 f2 n : Nat), n < f1 → n < f2 → natCharsGo f1 n = natCharsGo f2 n
  | 0, _, _, h1, _ => absurd h1 (by omega)
  | _ + 1, 0, _, _, h2 => absurd h2 (by omega)
  | f1 + 1, f2 + 1, n, h1, h2 => by
      unfold natCharsGo
      by_cases hn : n < 10
      · simp [hn]
      · simp only [if_neg hn]
        rw [natCharsGo_stable f1 f2 (n / 10) (by omega) (by omega)]

theorem natChars_eq (n : Nat) :
    natChars n =
      if n < 10 then [digitChar48 n]
      else natChars (n / 10) ++ [digitChar48 (n % 10)] := by
  unfold natChars
  rw [show natCharsGo (n + 1) n = if n < 10 then [digitChar48 n]
      else natCharsGo n (n / 10) ++ [digitChar48 (n % 10)] from rfl]
  by_cases hn : n < 10
  · simp [hn]
  · simp only [if_neg hn]
    rw [natCharsGo_stable n (n / 10 + 1) (n / 10) (by omega) (by omega)]

theorem digitChar48_isDigit {d : Nat} (hd : d < 10) :
    (digitChar48 d).isDigit = true := by
  interval_cases d <;> decide

theorem digitVal_digitChar48 {d : Nat} (hd : d < 10) :
    digitVal (digitChar48 d) = d := by
  interval_cases d <;> decide

theorem natChars_digits (n : Nat) : ∀ c ∈ natChars n, c.isDigit = true := by
  induction n using Nat.strong_induction_on with
  | _ n ih =>
      rw [natChars_eq]
      by_cases hn : n < 10
      · simp only [if_pos hn]
        intro c hc
        obtain rfl : c = _ := List.mem_singleton.mp hc
        exact digitChar48_isDigit hn
      · simp only [if_neg hn]
        intro c hc
        rcases List.mem_append.mp hc with h | h
        · exact ih (n / 10) (by omega) c h
        · obtain rfl : c = _ := List.mem_singleton.mp h
          exact digitChar48_isDigit (by omega)

theorem digitsToNat_append_singleton (l : List Char) (c : Char) :
    digitsToNat (l ++ [c]) = digitsToNat l * 10 + digitVal c := by
  unfold digitsToNat
  rw [List.foldl_append]
  rfl

theorem digitsToNat_natChars (n : Nat) : digitsToNat (natChars n) = n := by
  induction n using Nat.strong_induction_on with
  | _ n ih =>
      rw [natChars_eq]
      by_cases hn : n < 10
      · simp only [if_pos hn]
        show 0 * 10 + digitVal (digitChar48 n) = n
        rw [digitVal_digitChar48 hn]
        omega
      · simp only [if_neg hn]
        rw [digitsToNat_append_singleton, ih (n / 10) (by omega),
          digitVal_digitChar48 (by omega)]
        omega

theorem natChars_ne_nil (n : Nat) : natChars n ≠ [] := by
  rw [natChars_eq]
  by_cases hn : n < 10
  · simp [hn]
  · simp [hn]

theorem isDigit_not_space {c : Char} (h : c.isDigit = true) :
    isPySpace c = false := by
  rw [Char.isDigit] at h
  simp only [Bool.and_eq_true, decide_eq_true_eq] at h
  unfold isPySpace
  simp only [Bool.or_eq_false_iff, decide_eq_false_iff_not]
  have h1 : 48 ≤ c.toNat := h.1
  refine ⟨⟨⟨⟨⟨?_, ?_⟩, ?_⟩, ?_⟩, ?_⟩, ?_⟩ <;>
    (intro hc2; subst hc2; revert h1; decide)

theorem natChars_not_space (n : Nat) :
    ∀ c ∈ natChars n, isPySpace c = false :=
  fun c hc => isDigit_not_space (natChars_digits n c hc)

theorem natChars_length_four {y : Nat} (h1 : 1000 ≤ y) (h2 : y ≤ 9999) :
    (natChars y).length = 4 := by
  rw [natChars_eq, if_neg (by omega),
    natChars_eq, if_neg (by omega),
    natChars_eq, if_neg (by omega),
    natChars_eq, if_pos (by omega)]
  simp

/-- `takeWhile` over an all-true prefix. -/
theorem takeWhile_append_all {p : Char → Bool} :
    ∀ (l r : List Char), (∀ c ∈ l, p c = true) →
      (l ++ r).takeWhile p = l ++ r.takeWhile p
  | [], r, _ => rfl
  | c :: l, r, h => by
      rw [List.cons_append, List.takeWhile_cons, if_pos (h c (by simp)),
        takeWhile_append_all l r (fun c2 hc2 => h c2 (by simp [hc2])),
        List.cons_append]

/-- `dropWhile` over an all-true prefix. -/
theorem dropWhile_append_all {p : Char → Bool} :
    ∀ (l r : List Char), (∀ c ∈ l, p c = true) →
      (l ++ r).dropWhile p = r.dropWhile p
  | [], r, _ => rfl
  | c :: l, r, h => by
      rw [List.cons_append, List.dropWhile_cons, if_pos (h c (by simp))]
      exact dropWhile_append_all l r (fun c2 hc2 => h c2 (by simp [hc2]))

theorem takeWhile_cons_neg {p : Char → Bool} {c : Char} (l : List Char)
    (hc : p c = false) : (c :: l).takeWhile p = [] := by
  rw [List.takeWhile_cons, if_neg (by simp [hc])]

theorem dropWhile_cons_neg {p : Char → Bool} {c : Char} (l : List Char)
    (hc : p c = false) : (c :: l).dropWhile p = c :: l := by
  rw [List.dropWhile_cons, if_neg (by simp [hc])]

theorem isEmpty_false_of_ne_nil {l : List Char} (h : l ≠ []) :
    l.isEmpty = false := by
  cases l with
  | nil => exact absurd rfl h
  | cons c cs => rfl

theorem natChars_head_digit (n : Nat) :
    ∃ c cs, natChars n = c :: cs ∧ c.isDigit = true := by
  cases hc : natChars n with
  | nil => exact absurd hc (natChars_ne_nil n)
  | cons c cs =>
      exact ⟨c, cs, rfl, natChars_digits n c (by rw [hc]; simp)⟩

theorem dropWhile_space_natChars_append (n : Nat) (X : List Char) :
    (natChars n ++ X).dropWhile isPySpace = natChars n ++ X := by
  obtain ⟨c, cs, hcons, hd⟩ := natChars_head_digit n
  rw [hcons, List.cons_append, dropWhile_cons_neg _ (isDigit_not_space hd)]

/-- The hours-and-minutes pattern matches at the head of
`"{h} hr {m} min{tail}"` with groups `h` and `m`. -/
theorem matchHrMinAt_canonical (h m : Nat) (tail : List Char) :
    matchHrMinAt (natChars h ++ ' ' :: 'h' :: 'r' :: ' ' ::
      (natChars m ++ ' ' :: 'm' :: 'i' :: 'n' :: tail)) = some (h, m) := by
  have hdig := natChars_digits h
  have mdig := natChars_digits m
  unfold matchHrMinAt
  rw [takeWhile_append_all _ _ hdig, takeWhile_cons_neg _ (by decide),
    List.append_nil, dropWhile_append_all _ _ hdig,
    dropWhile_cons_neg _ (by decide)]
  rw [List.dropWhile_cons]
  rw [if_pos (by decide : isPySpace ' ' = true)]
  rw [dropWhile_cons_neg _ (by decide : isPySpace 'h' = false)]
  rw [if_neg (isEmpty_false_of_ne_nil (natChars_ne_nil h) ▸ (by simp) :
    ¬ (natChars h).isEmpty = true)]
  dsimp only
  rw [if_pos (by decide : lowerChar 'h' = 'h' ∧ lowerChar 'r' = 'r')]
  rw [if_neg (by decide : ¬ lowerChar ' ' = 's')]
  rw [List.dropWhile_cons, if_pos (by decide : isPySpace ' ' = true),
    dropWhile_space_natChars_append]
  rw [takeWhile_append_all _ _ mdig, takeWhile_cons_neg _ (by decide),
    List.append_nil, dropWhile_append_all _ _ mdig,
    dropWhile_cons_neg _ (by decide)]
  rw [if_neg (isEmpty_false_of_ne_nil (natChars_ne_nil m) ▸ (by simp) :
    ¬ (natChars m).isEmpty = true)]
  rw [List.dropWhile_cons, if_pos (by decide : isPySpace ' ' = true),
    dropWhile_cons_neg _ (by decide : isPySpace 'm' = false)]
  dsimp only
  rw [if_pos (by decide : lowerChar 'm' = 'm' ∧ lowerChar 'i' = 'i' ∧
    lowerChar 'n' = 'n')]
  rw [digitsToNat_natChars, digitsToNat_natChars]

/-- The bare minutes pattern matches at the head of `"{m} min{tail}"`. -/
theorem matchMinAt_canonical (m : Nat) (tail : List Char) :
    matchMinAt (natChars m ++ ' ' :: 'm' :: 'i' :: 'n' :: tail) = some m := by
  have mdig := natChars_digits m
  unfold matchMinAt
  rw [takeWhile_append_all _ _ mdig, takeWhile_cons_neg _ (by decide),
    List.append_nil, dropWhile_append_all _ _ mdig,
    dropWhile_cons_neg _ (by decide)]
  rw [if_neg (isEmpty_false_of_ne_nil (natChars_ne_nil m) ▸ (by simp) :
    ¬ (natChars m).isEmpty = true)]
  rw [List.dropWhile_cons, if_pos (by decide : isPySpace ' ' = true),
    dropWhile_cons_neg _ (by decide : isPySpace 'm' = false)]
  dsimp only
  rw [if_pos (by decide : lowerChar 'm' = 'm' ∧ lowerChar 'i' = 'i' ∧
    lowerChar 'n' = 'n')]
  rw [digitsToNat_natChars]

theorem searchHrMin_of_head {cs : List Char} {r : Nat × Nat}
    (hne : cs ≠ []) (hm : matchHrMinAt cs = some r) :
    searchHrMin cs = some r := by
  cases cs with
  | nil => exact absurd rfl hne
  | cons c rest =>
      unfold searchHrMin
      rw [hm]

theorem searchMin_of_head {cs : List Char} {r : Nat}
    (hne : cs ≠ []) (hm : matchMinAt cs = some r) :
    searchMin cs = some r := by
  cases cs with
  | nil => exact absurd rfl hne
  | cons c rest =>
      unfold searchMin
      rw [hm]

theorem matchHrMinAt_no_h {cs : List Char}
    (h : ∀ c ∈ cs, ¬ lowerChar c = 'h') : matchHrMinAt cs = none := by
  unfold matchHrMinAt
  by_cases hd : (cs.takeWhile Char.isDigit).isEmpty = true
  · rw [if_pos hd]
  · rw [if_neg hd]
    have hsub : ∀ c ∈ (cs.dropWhile Char.isDigit).dropWhile isPySpace,
        c ∈ cs := by
      intro c hc
      exact (List.dropWhile_suffix Char.isDigit).subset
        ((List.dropWhile_suffix isPySpace).subset hc)
    cases hx : (cs.dropWhile Char.isDigit).dropWhile isPySpace with
    | nil => rfl
    | cons c1 rest1 =>
        cases rest1 with
        | nil => rfl
        | cons c2 rest2 =>
            have hc1 : c1 ∈ cs := by
              refine hsub c1 ?_
              rw [hx]
              simp
            dsimp only
            rw [if_neg (fun hand => h c1 hc1 hand.1)]

theorem searchHrMin_no_h :
    ∀ (cs : List Char), (∀ c ∈ cs, ¬ lowerChar c = 'h') →
      searchHrMin cs = none
  | [], _ => rfl
  | c :: rest, h => by
      unfold searchHrMin
      rw [matchHrMinAt_no_h h]
      exact searchHrMin_no_h rest (fun c2 hc2 => h c2 (by simp [hc2]))

theorem dropWhile_eq_self_of_head {p : Char → Bool} :
    ∀ {l : List Char} {c : Char}, l.head? = some c → p c = false →
      l.dropWhile p = l := by
  intro l c hh hp
  cases l with
  | nil => rfl
  | cons c0 rest =>
      obtain rfl : c0 = c := by simpa using hh
      exact dropWhile_cons_neg _ hp

/-- `strip` leaves a string alone when it neither starts nor ends with
whitespace. -/
theorem pyStrip_eq_self {l : List Char} {c1 c2 : Char}
    (h1 : l.head? = some c1) (hp1 : isPySpace c1 = false)
    (h2 : l.getLast? = some c2) (hp2 : isPySpace c2 = false) :
    pyStrip ⟨l⟩ = ⟨l⟩ := by
  unfold pyStrip
  rw [show (String.mk l).data = l from rfl,
    dropWhile_eq_self_of_head h1 hp1,
    dropWhile_eq_self_of_head (by rw [List.head?_reverse]; exact h2) hp2,
    List.reverse_reverse]

/-! ## Lemmas: the ISO-8601 duration matcher -/

theorem dropWhile_eq_self_of_takeWhile_nil {p : Char → Bool} :
    ∀ {l : List Char}, l.takeWhile p = [] → l.dropWhile p = l := by
  intro l h
  cases l with
  | nil => rfl
  | cons c rest =>
      rw [List.takeWhile_cons] at h
      by_cases hc : p c = true
      · rw [if_pos hc] at h
        exact absurd h (by simp)
      · exact dropWhile_cons_neg _ (by simpa using hc)

theorem matchPT_both (h m : Nat) :
    matchPTDuration ⟨'P' :: 'T' :: (natChars h ++ 'H' ::
      (natChars m ++ ['M']))⟩ = some (some h, some m) := by
  have hdig := natChars_digits h
  have mdig := natChars_digits m
  unfold matchPTDuration
  dsimp only
  rw [if_pos (by decide : ('P' : Char) = 'P' ∧ ('T' : Char) = 'T')]
  rw [takeWhile_append_all _ _ hdig, takeWhile_cons_neg _ (by decide),
    List.append_nil, dropWhile_append_all _ _ hdig,
    dropWhile_cons_neg _ (by decide)]
  dsimp only
  rw [if_pos ⟨rfl, by rw [isEmpty_false_of_ne_nil (natChars_ne_nil h)]; simp⟩]
  dsimp only
  rw [takeWhile_append_all _ _ mdig, takeWhile_cons_neg _ (by decide),
    List.append_nil, dropWhile_append_all _ _ mdig,
    dropWhile_cons_neg _ (by decide)]
  dsimp only
  rw [if_pos ⟨rfl, by rw [isEmpty_false_of_ne_nil (natChars_ne_nil m)]; simp⟩]
  rw [digitsToNat_natChars, digitsToNat_natChars]

theorem matchPT_minOnly (m : Nat) :
    matchPTDuration ⟨'P' :: 'T' :: (natChars m ++ ['M'])⟩ =
      some (none, some m) := by
  have mdig := natChars_digits m
  unfold matchPTDuration
  dsimp only
  rw [if_pos (by decide : ('P' : Char) = 'P' ∧ ('T' : Char) = 'T')]
  rw [takeWhile_append_all _ _ mdig, takeWhile_cons_neg _ (by decide),
    List.append_nil, dropWhile_append_all _ _ mdig,
    dropWhile_cons_neg _ (by decide)]
  dsimp only
  rw [if_neg (by
    rintro ⟨hM, -⟩
    exact absurd hM (by decide))]
  dsimp only
  rw [takeWhile_append_all _ _ mdig, takeWhile_cons_neg _ (by decide),
    List.append_nil, dropWhile_append_all _ _ mdig,
    dropWhile_cons_neg _ (by decide)]
  dsimp only
  rw [if_pos ⟨rfl, by rw [isEmpty_false_of_ne_nil (natChars_ne_nil m)]; simp⟩]
  rw [digitsToNat_natChars]

theorem matchPT_hourOnly (h : Nat) :
    matchPTDuration ⟨'P' :: 'T' :: (natChars h ++ ['H'])⟩ =
      some (some h, none) := by
  have hdig := natChars_digits h
  unfold matchPTDuration
  dsimp only
  rw [if_pos (by decide : ('P' : Char) = 'P' ∧ ('T' : Char) = 'T')]
  rw [takeWhile_append_all _ _ hdig, takeWhile_cons_neg _ (by decide),
    List.append_nil, dropWhile_append_all _ _ hdig,
    dropWhile_cons_neg _ (by decide)]
  dsimp only
  rw [if_pos ⟨rfl, by rw [isEmpty_false_of_ne_nil (natChars_ne_nil h)]; simp⟩]
  dsimp only
  rw [digitsToNat_natChars]
  rfl

theorem matchPT_noComponents {rest : List Char} (hr : ptNoComponents rest) :
    matchPTDuration ⟨'P' :: 'T' :: rest⟩ = some (none, none) := by
  unfold matchPTDuration
  dsimp only
  rw [if_pos (by decide : ('P' : Char) = 'P' ∧ ('T' : Char) = 'T')]
  unfold ptNoComponents at hr
  rcases hr with hEmpty | hHead
  · rw [dropWhile_eq_self_of_takeWhile_nil hEmpty]
    cases rest with
    | nil => rfl
    | cons c r =>
        dsimp only
        rw [if_neg (by
          rintro ⟨-, hne⟩
          rw [hEmpty] at hne
          simp at hne)]
        dsimp only
        rw [dropWhile_eq_self_of_takeWhile_nil hEmpty]
        dsimp only
        rw [if_neg (by
          rintro ⟨-, hne⟩
          rw [hEmpty] at hne
          simp at hne)]
  · cases hx : rest.dropWhile Char.isDigit with
    | nil =>
        rw [hx]
    | cons c r =>
        rw [hx] at hHead
        dsimp only at hHead
        dsimp only
        rw [if_neg (by rintro ⟨hc, -⟩; exact hHead.1 hc)]
        dsimp only
        rw [hx]
        dsimp only
        rw [if_neg (by rintro ⟨hc, -⟩; exact hHead.2 hc)]

/-- Scanning a soup with a single Movie JSON-LD object yields the matched
duration components. -/
theorem s35_soup_duration {dur : String} {g1 g2 : Option Nat}
    (hne : dur ≠ "") (hm : matchPTDuration dur = some (g1, g2)) :
    parse_studio35_runtime_minutes_from_soup
      [.parsed (.jobj [("@type", .jstr "Movie"), ("duration", .jstr dur)])] =
      some ((g1.getD 0) * 60 + (g2.getD 0)) := by
  have ht : jTruthy (.jstr dur) = true := by
    unfold jTruthy
    simpa using hne
  have hMovie : jIsMovie (jGet
      [("@type", JVal.jstr "Movie"), ("duration", JVal.jstr dur)] "@type") =
      true := rfl
  have hDur : jGet
      [("@type", JVal.jstr "Movie"), ("duration", JVal.jstr dur)] "duration" =
      some (JVal.jstr dur) := rfl
  unfold parse_studio35_runtime_minutes_from_soup s35ScanScripts
    s35ScanCandidates
  dsimp only [jCandidates]
  rw [if_pos hMovie]
  simp only [hDur, ht, hm, if_true]

/-! ## Lemmas: `strptime` consumes a suffix, and the year is the appended
current year -/

theorem eatSpaces1_suffix {cs rest : List Char}
    (h : eatSpaces1 cs = some rest) : rest <:+ cs := by
  unfold eatSpaces1 at h
  dsimp only at h
  split_ifs at h
  obtain rfl : cs.dropWhile isPySpace = rest := Option.some_inj.mp h
  exact List.dropWhile_suffix isPySpace

theorem eatLit_suffix {c : Char} {cs rest : List Char}
    (h : eatLit c cs = some rest) : rest <:+ cs := by
  unfold eatLit at h
  split at h
  · exact Option.noConfusion h
  · rename_i d r
    split_ifs at h
    obtain rfl : r = rest := Option.some_inj.mp h
    exact List.suffix_cons _ _

theorem parse12Hour_suffix :
    ∀ {cs : List Char} {v : Nat} {rest : List Char},
      parse12Hour cs = some (v, rest) → rest <:+ cs
  | [], _, _, hp => Option.noConfusion hp
  | [c1], v, rest, hp => by
      simp only [parse12Hour] at hp
      split_ifs at hp
      simp only [Option.some.injEq, Prod.mk.injEq] at hp
      obtain ⟨-, rfl⟩ := hp
      exact List.nil_suffix
  | c1 :: c2 :: cs, v, rest, hp => by
      simp only [parse12Hour] at hp
      split_ifs at hp <;>
        (simp only [Option.some.injEq, Prod.mk.injEq] at hp;
          obtain ⟨-, rfl⟩ := hp)
      · exact (List.suffix_cons c2 cs).trans (List.suffix_cons c1 _)
      · exact (List.suffix_cons c2 cs).trans (List.suffix_cons c1 _)
      · exact List.suffix_cons c1 _

theorem parseMinute_suffix :
    ∀ {cs : List Char} {v : Nat} {rest : List Char},
      parseMinute cs = some (v, rest) → rest <:+ cs
  | [], _, _, hp => Option.noConfusion hp
  | [c1], v, rest, hp => by
      simp only [parseMinute] at hp
      split_ifs at hp
      simp only [Option.some.injEq, Prod.mk.injEq] at hp
      obtain ⟨-, rfl⟩ := hp
      exact List.nil_suffix
  | c1 :: c2 :: cs, v, rest, hp => by
      simp only [parseMinute] at hp
      split_ifs at hp <;>
        (simp only [Option.some.injEq, Prod.mk.injEq] at hp;
          obtain ⟨-, rfl⟩ := hp)
      · exact (List.suffix_cons c2 cs).trans (List.suffix_cons c1 _)
      · exact List.suffix_cons c1 _

theorem parseDayOfMonth_suffix :
    ∀ {cs : List Char} {v : Nat} {rest : List Char},
      parseDayOfMonth cs = some (v, rest) → rest <:+ cs
  | [], _, _, hp => Option.noConfusion hp
  | [c1], v, rest, hp => by
      simp only [parseDayOfMonth] at hp
      split_ifs at hp
      simp only [Option.some.injEq, Prod.mk.injEq] at hp
      obtain ⟨-, rfl⟩ := hp
      exact List.nil_suffix
  | c1 :: c2 :: cs, v, rest, hp => by
      simp only [parseDayOfMonth] at hp
      split_ifs at hp <;>
        (simp only [Option.some.injEq, Prod.mk.injEq] at hp;
          obtain ⟨-, rfl⟩ := hp)
      · exact (List.suffix_cons c2 cs).trans (List.suffix_cons c1 _)
      · exact (List.suffix_cons c2 cs).trans (List.suffix_cons c1 _)
      · exact (List.suffix_cons c2 cs).trans (List.suffix_cons c1 _)
      · exact List.suffix_cons c1 _

theorem parseAmPm_suffix :
    ∀ {cs : List Char} {pm : Bool} {rest : List Char},
      parseAmPm cs = some (pm, rest) → rest <:+ cs := by
  intro cs pm rest hp
  unfold parseAmPm at hp
  split at hp
  · rename_i c1 c2 r
    split_ifs at hp <;>
      (simp only [Option.some.injEq, Prod.mk.injEq] at hp;
        obtain ⟨-, rfl⟩ := hp) <;>
      exact (List.suffix_cons c2 r).trans (List.suffix_cons c1 _)
  · exact Option.noConfusion hp

theorem eatNameCI_suffix :
    ∀ {name cs rest : List Char}, eatNameCI name cs = some rest →
      rest <:+ cs
  | [], cs, rest, hp => by
      obtain rfl : cs = rest := Option.some_inj.mp hp
      exact List.suffix_refl _
  | n :: ns, [], rest, hp => Option.noConfusion hp
  | n :: ns, c :: cs, rest, hp => by
      simp only [eatNameCI] at hp
      split_ifs at hp
      exact (eatNameCI_suffix hp).trans (List.suffix_cons c cs)

theorem parseNameOf_suffix :
    ∀ {alts : List (List Char × Nat)} {cs : List Char} {v : Nat}
      {rest : List Char}, parseNameOf alts cs = some (v, rest) → rest <:+ cs
  | [], _, _, _, hp => Option.noConfusion hp
  | (n, v0) :: more, cs, v, rest, hp => by
      simp only [parseNameOf] at hp
      split at hp
      · rename_i r heq
        simp only [Option.some.injEq, Prod.mk.injEq] at hp
        obtain ⟨-, rfl⟩ := hp
        exact eatNameCI_suffix heq
      · exact parseNameOf_suffix hp

theorem mkDateTimeChecked_fields {y mo d h mi : Nat} {dt : PyDateTime}
    (hp : mkDateTimeChecked y mo d h mi = some dt) :
    dt = ⟨y, mo, d, h, mi⟩ := by
  unfold mkDateTimeChecked at hp
  split_ifs at hp
  exact (Option.some_inj.mp hp).symm

/-- A successful `parseYear4` that consumes the whole rest of the data
string, where the data ends in the four digits of `y`, read exactly `y`. -/
theorem parseYear4_end {pre r11 : List Char} {y yr : Nat}
    (hy1 : 1000 ≤ y) (hy2 : y ≤ 9999)
    (hsuf : r11 <:+ pre ++ natChars y)
    (hp : parseYear4 r11 = some (yr, [])) : yr = y := by
  unfold parseYear4 at hp
  dsimp only at hp
  split_ifs at hp with hc
  simp only [Option.some.injEq, Prod.mk.injEq] at hp
  obtain ⟨rfl, hdrop⟩ := hp
  have hlen : r11.length = 4 := by
    have h1 := hc.1
    have h2 := congrArg List.length hdrop
    simp at h1 h2
    omega
  have htake : r11.take 4 = r11 := by
    rw [List.take_of_length_le (by omega)]
  obtain ⟨t, ht⟩ := hsuf
  have hlen4 : (natChars y).length = 4 := natChars_length_four hy1 hy2
  have heq : r11 = natChars y := by
    have := List.append_inj' ht (by omega)
    exact this.2
  rw [htake, heq, digitsToNat_natChars]

/-- A successful Studio 35 showtime parse carries exactly the appended
current year (for a four-digit year). -/
theorem strptimeStudio35_year {text : String} {y : Nat} {dt : PyDateTime}
    (hy1 : 1000 ≤ y) (hy2 : y ≤ 9999)
    (hp : strptimeStudio35 text y = some dt) : dt.year = y := by
  simp only [strptimeStudio35] at hp
  split at hp
  · exact Option.noConfusion hp
  rename_i mo r1 h1
  split at hp
  · exact Option.noConfusion hp
  rename_i r2 h2
  split at hp
  · exact Option.noConfusion hp
  rename_i d r3 h3
  split at hp
  · exact Option.noConfusion hp
  rename_i r4 h4
  split at hp
  · exact Option.noConfusion hp
  rename_i r5 h5
  split at hp
  · exact Option.noConfusion hp
  rename_i h12 r6 h6
  split at hp
  · exact Option.noConfusion hp
  rename_i r7 h7
  split at hp
  · exact Option.noConfusion hp
  rename_i mi r8 h8
  split at hp
  · exact Option.noConfusion hp
  rename_i r9 h9
  split at hp
  · exact Option.noConfusion hp
  rename_i pm r10 h10
  split at hp
  · exact Option.noConfusion hp
  rename_i r11 h11
  split at hp
  · rename_i yr hyr
    have hsuf : r11 <:+ text.data ++ ' ' :: natChars y :=
      ((((((((((eatSpaces1_suffix h11).trans
        (parseAmPm_suffix h10)).trans
        (eatSpaces1_suffix h9)).trans
        (parseMinute_suffix h8)).trans
        (eatLit_suffix h7)).trans
        (parse12Hour_suffix h6)).trans
        (eatSpaces1_suffix h5)).trans
        (eatLit_suffix h4)).trans
        (parseDayOfMonth_suffix h3)).trans
        (eatSpaces1_suffix h2)).trans
        (parseNameOf_suffix h1)
    have hsuf2 : r11 <:+ (text.data ++ [' ']) ++ natChars y := by
      simpa [List.append_assoc] using hsuf
    have hyy := parseYear4_end hy1 hy2 hsuf2 hyr
    rw [mkDateTimeChecked_fields hp, hyy]
  · exact Option.noConfusion hp

/-- A successful Drexel showtime parse carries exactly the appended current
year (for a four-digit year). -/
theorem strptimeDrexel_year {s : String} {y : Nat} {dt : PyDateTime}
    (hy1 : 1000 ≤ y) (hy2 : y ≤ 9999)
    (hp : strptimeDrexel s y = some dt) : dt.year = y := by
  simp only [strptimeDrexel] at hp
  split at hp
  · exact Option.noConfusion hp
  rename_i wd r0 h0
  split at hp
  · exact Option.noConfusion hp
  rename_i r1 h1
  split at hp
  · exact Option.noConfusion hp
  rename_i r2 h2
  split at hp
  · exact Option.noConfusion hp
  rename_i mo r3 h3
  split at hp
  · exact Option.noConfusion hp
  rename_i r4 h4
  split at hp
  · exact Option.noConfusion hp
  rename_i d r5 h5
  split at hp
  · exact Option.noConfusion hp
  rename_i r6 h6
  split at hp
  · exact Option.noConfusion hp
  rename_i h12 r7 h7
  split at hp
  · exact Option.noConfusion hp
  rename_i r8 h8
  split at hp
  · exact Option.noConfusion hp
  rename_i mi r9 h9
  split at hp
  · exact Option.noConfusion hp
  rename_i r10 h10
  split at hp
  · exact Option.noConfusion hp
  rename_i pm r11 h11
  split at hp
  · exact Option.noConfusion hp
  rename_i r12 h12a
  split at hp
  · rename_i yr hyr
    have hsuf : r12 <:+ s.data ++ ' ' :: natChars y :=
      ((((((((((((eatSpaces1_suffix h12a).trans
        (parseAmPm_suffix h11)).trans
        (eatSpaces1_suffix h10)).trans
        (parseMinute_suffix h9)).trans
        (eatLit_suffix h8)).trans
        (parse12Hour_suffix h7)).trans
        (eatSpaces1_suffix h6)).trans
        (parseDayOfMonth_suffix h5)).trans
        (eatSpaces1_suffix h4)).trans
        (parseNameOf_suffix h3)).trans
        (eatSpaces1_suffix h2)).trans
        (eatLit_suffix h1)).trans
        (parseNameOf_suffix h0)
    have hsuf2 : r12 <:+ (s.data ++ [' ']) ++ natChars y := by
      simpa [List.append_assoc] using hsuf
    have hyy := parseYear4_end hy1 hy2 hsuf2 hyr
    rw [mkDateTimeChecked_fields hp, hyy]
  · exact Option.noConfusion hp

theorem s35Showtimes_year {y : Nat} (hy1 : 1000 ≤ y) (hy2 : y ≤ 9999)
    (texts : List String) :
    ∀ s ∈ s35Showtimes y texts,
      ∃ dt, tsValid dt ∧ s = mkTimestamp dt ∧ dt.year = y := by
  unfold s35Showtimes
  refine foldl_induction _
    (fun acc => ∀ s ∈ acc, ∃ dt, tsValid dt ∧ s = mkTimestamp dt ∧
      dt.year = y) texts [] (by intro s h; cases h) ?_
  intro acc text _ hacc s hs
  revert hs
  split
  · exact hacc s
  · rename_i dt hdt
    intro hs
    rcases List.mem_append.mp hs with h | h
    · exact hacc s h
    · obtain rfl : s = _ := List.mem_singleton.mp h
      exact ⟨dt, strptimeStudio35_valid hdt, rfl,
        strptimeStudio35_year hy1 hy2 hdt⟩

theorem s35Loop_year {y : Nat} (hy1 : 1000 ≤ y) (hy2 : y ≤ 9999)
    (w : S35World) :
    ∀ (links : List String) (r : List Listing),
      s35Loop y w links = .ok r →
      ∀ l ∈ r, ∀ s ∈ l.showtimes,
        ∃ dt, tsValid dt ∧ s = mkTimestamp dt ∧ dt.year = y
  | [], r, hr => by
      obtain rfl : [] = r := by simpa [s35Loop] using hr
      intro l hl
      cases hl
  | link :: more, r, hr => by
      unfold s35Loop at hr
      dsimp only at hr
      split at hr
      · exact Except.noConfusion hr
      · rename_i pg hpg
        split at hr
        · exact Except.noConfusion hr
        · rename_i rest hrest
          simp only [Except.ok.injEq] at hr
          subst hr
          intro l hl
          rcases List.mem_cons.mp hl with rfl | hl
          · intro s hs
            rw [pySetSorted, mem_pySetOfList] at hs
            exact s35Showtimes_year hy1 hy2 pg.showtimeTexts s hs
          · exact s35Loop_year hy1 hy2 w more rest hrest l hl

theorem fetch_studio35_year {y : Nat} {w : S35World} {r : List Listing}
    (hy1 : 1000 ≤ y) (hy2 : y ≤ 9999) (hr : fetch_studio35 y w = .ok r) :
    ∀ l ∈ r, ∀ s ∈ l.showtimes,
      ∃ dt, tsValid dt ∧ s = mkTimestamp dt ∧ dt.year = y := by
  unfold fetch_studio35 at hr
  split at hr
  · exact Except.noConfusion hr
  · exact s35Loop_year hy1 hy2 w _ r hr

theorem drexelShowtimes_year {y : Nat} (hy1 : 1000 ≤ y) (hy2 : y ≤ 9999)
    (blocks : List DShowBlock) :
    ∀ s ∈ drexelShowtimes y blocks,
      ∃ dt, tsValid dt ∧ s = mkTimestamp dt ∧ dt.year = y := by
  unfold drexelShowtimes
  refine foldl_induction _
    (fun acc => ∀ s ∈ acc, ∃ dt, tsValid dt ∧ s = mkTimestamp dt ∧
      dt.year = y) blocks [] (by intro s h; cases h) ?_
  intro acc blk _ hacc s hs
  revert hs
  split
  · exact hacc s
  · rename_i date_text hdate
    refine foldl_induction _
      (fun acc2 => ∀ s2 ∈ acc2, ∃ dt, tsValid dt ∧ s2 = mkTimestamp dt ∧
        dt.year = y) blk.timeTexts acc hacc ?_ s
    intro acc2 time_text _ hacc2 s2 hs2
    revert hs2
    split
    · exact hacc2 s2
    · rename_i dt hdt
      intro hs2
      rcases List.mem_append.mp hs2 with h | h
      · exact hacc2 s2 h
      · obtain rfl : s2 = _ := List.mem_singleton.mp h
        exact ⟨dt, strptimeDrexel_valid hdt, rfl,
          strptimeDrexel_year hy1 hy2 hdt⟩

theorem drexelLoop_year {y : Nat} (hy1 : 1000 ≤ y) (hy2 : y ≤ 9999) :
    ∀ (items : List DrexelItem) (r : List Listing),
      drexelLoop y items = .ok r → ∀ l ∈ r, ∀ s ∈ l.showtimes,
        ∃ dt, tsValid dt ∧ s = mkTimestamp dt ∧ dt.year = y
  | [], r, hr => by
      simp only [drexelLoop, Except.ok.injEq] at hr
      subst hr
      intro l hl
      cases hl
  | item :: more, r, hr => by
      unfold drexelLoop at hr
      revert hr
      split
      · exact fun hr => drexelLoop_year hy1 hy2 more r hr
      · rename_i nm hnm
        split
        · exact fun hr => Except.noConfusion hr
        · rename_i link hlink
          split
          · exact fun hr => Except.noConfusion hr
          · rename_i rest hrest
            intro hr
            simp only [Except.ok.injEq] at hr
            subst hr
            intro l hl
            rcases List.mem_cons.mp hl with rfl | hl
            · intro s hs
              rw [pySetSorted, mem_pySetOfList] at hs
              exact drexelShowtimes_year hy1 hy2 item.blocks s hs
            · exact drexelLoop_year hy1 hy2 more rest hrest l hl

theorem fetch_drexel_year {y : Nat} {w : DWorld} {r : List Listing}
    (hy1 : 1000 ≤ y) (hy2 : y ≤ 9999) (hr : fetch_drexel y w = .ok r) :
    ∀ l ∈ r, ∀ s ∈ l.showtimes,
      ∃ dt, tsValid dt ∧ s = mkTimestamp dt ∧ dt.year = y := by
  unfold fetch_drexel at hr
  split at hr
  · exact Except.noConfusion hr
  · exact drexelLoop_year hy1 hy2 _ r hr

/-! ## Lemmas: the merged record at a key shared by both entry points -/

theorem gateway_merge_union (w : GWorld) {k : String} {rA rB : GRec}
    (hA : alookup (collect_from_upcoming w).out k = some rA)
    (hB : alookup (collect_from_homepage w).1 k = some rB) :
    ∃ r, alookup (gateway_by_key w) k = some r ∧
      ∀ s, s ∈ r.showtimes ↔ (s ∈ rA.showtimes ∨ s ∈ rB.showtimes) := by
  obtain ⟨mA1, mA2, hAeq, hA1, hA2⟩ :=
    alookup_split hA (collect_from_upcoming_keysNodup w)
  obtain ⟨mB1, mB2, hBeq, hB1, hB2⟩ :=
    alookup_split hB (collect_from_homepage_invariants w).2.2
  unfold gateway_by_key
  rw [hAeq, hBeq,
    alookup_foldl_mergeStep_focus _ mB1 mB2 hB1 hB2,
    alookup_foldl_mergeStep_focus _ mA1 mA2 hA1 hA2]
  refine ⟨_, rfl, ?_⟩
  intro s
  show s ∈ pySetUnionList (mergeCombine (alookup [] k) rA).showtimes
      rB.showtimes ↔ _
  rw [mem_pySetUnionList]
  show s ∈ pySetUnionList [] rA.showtimes ∨ _ ↔ _
  rw [mem_pySetUnionList]
  simp

/-! ## Lemmas: success conditions of the units -/

theorem s35Loop_ok (y : Nat) (w : S35World) :
    ∀ (links : List String),
      (∀ link ∈ links, ∃ pg, w.page (s35FullLink link) = some pg) →
      ∃ r, s35Loop y w links = .ok r
  | [], _ => ⟨[], rfl⟩
  | link :: more, h => by
      obtain ⟨pg, hpg⟩ := h link (by simp)
      obtain ⟨rest, hrest⟩ :=
        s35Loop_ok y w more (fun l hl => h l (by simp [hl]))
      refine ⟨{ title := pg.titleText.getD "Unknown",
                url := some (s35FullLink link),
                runtime := parse_studio35_runtime_minutes_from_soup pg.scripts,
                showtimes := pySetSorted (pySetOfList
                  (s35Showtimes y pg.showtimeTexts)) } :: rest, ?_⟩
      unfold s35Loop
      dsimp only
      simp only [hpg, hrest]

theorem fetch_studio35_ok {y : Nat} {w : S35World} {hrefs : List String}
    (hh : w.homeHrefs = some hrefs)
    (hp : ∀ link ∈ pySetOfList (hrefs.filter (fun h => h ≠ "")),
      ∃ pg, w.page (s35FullLink link) = some pg) :
    ∃ r, fetch_studio35 y w = .ok r := by
  unfold fetch_studio35
  rw [hh]
  exact s35Loop_ok y w _ hp

theorem drexelLoop_ok (y : Nat) :
    ∀ (items : List DrexelItem),
      (∀ item ∈ items, item.name.isSome = true →
        item.viewHref ≠ some none) →
      ∃ r, drexelLoop y items = .ok r
  | [], _ => ⟨[], rfl⟩
  | item :: more, h => by
      obtain ⟨rest, hrest⟩ := drexelLoop_ok y more
        (fun it hit => h it (by simp [hit]))
      unfold drexelLoop
      cases hnm : item.name with
      | none => exact ⟨rest, hrest⟩
      | some nm =>
          have hvh : item.viewHref ≠ some none :=
            h item (by simp) (by rw [hnm]; rfl)
          cases hvh2 : item.viewHref with
          | none =>
              rw [hrest]
              exact ⟨_, rfl⟩
          | some oh =>
              cases oh with
              | none => exact absurd hvh2 hvh
              | some hs =>
                  rw [hrest]
                  exact ⟨_, rfl⟩

theorem drexelLoop_error (y : Nat) :
    ∀ (items : List DrexelItem),
      (∃ item ∈ items, item.name.isSome = true ∧
        item.viewHref = some none) →
      drexelLoop y items = .error ()
  | [], h => absurd h (by simp)
  | item :: more, ⟨it, hit, h1, h2⟩ => by
      rcases List.mem_cons.mp hit with heq | hmore
      · subst heq
        unfold drexelLoop
        cases hnm : it.name with
        | none =>
            rw [hnm] at h1
            exact absurd h1 (by simp)
        | some nm =>
            rw [h2]
            rfl
      · have hrec := drexelLoop_error y more ⟨it, hmore, h1, h2⟩
        unfold drexelLoop
        cases hnm : item.name with
        | none => exact hrec
        | some nm =>
            cases hdl : drexelLink item.viewHref with
            | error e => rfl
            | ok link =>
                rw [hrec]

/-! ## Lemmas: the combiner -/

theorem fetch_all_cinemas_inv {y : Nat} {wG : GWorld} {wS : S35World}
    {wD : DWorld} {doc : List (String × List Listing)}
    (h : fetch_all_cinemas y wG wS wD = .ok doc) :
    ∃ s d, fetch_studio35 y wS = .ok s ∧ fetch_drexel y wD = .ok d ∧
      doc = [("gateway", (fetch_gateway wG).1), ("studio35", s),
        ("drexel", d)] := by
  unfold fetch_all_cinemas at h
  split at h
  · exact Except.noConfusion h
  · rename_i s hs
    split at h
    · exact Except.noConfusion h
    · rename_i d hd
      simp only [Except.ok.injEq] at h
      exact ⟨s, d, hs, hd, h.symm⟩

theorem mkTimestamp_data_length (dt : PyDateTime) :
    (mkTimestamp dt).data.length = 16 := by
  rw [mkTimestamp_data]
  simp [pad2]

theorem fetch_gateway_keys_nodup (w : GWorld) :
    (((fetch_gateway w).1).map recKey).Nodup := by
  obtain ⟨-, hK, hN⟩ := gateway_by_key_invariants w
  unfold fetch_gateway
  dsimp only
  rw [List.map_map]
  have : ((gateway_by_key w).map (recKey ∘ fun kv =>
      ({ title := kv.2.title, url := kv.2.url, runtime := kv.2.runtime,
         showtimes := pySetSorted kv.2.showtimes } : Listing))) =
      (gateway_by_key w).map Prod.fst := by
    refine List.map_congr_left ?_
    intro kv hkv
    exact (hK kv hkv).symm
  rw [this]
  exact hN

theorem digit_lowerChar_ne_h {c : Char} (h : c.isDigit = true) :
    ¬ lowerChar c = 'h' := by
  obtain ⟨h1, h2⟩ := isDigit_toNat h
  unfold lowerChar
  split_ifs with hc
  · obtain ⟨hA, -⟩ := hc
    have : (65 : Nat) ≤ c.toNat := hA
    omega
  · intro he
    have : c.toNat = 104 := congrArg Char.toNat he
    omega

/-- `getLast?` of a nonempty-literal-tailed append. -/
theorem getLast_append_tail (A B : List Char) (c : Char) :
    (A ++ (B ++ [c])).getLast? = some c := by
  rw [List.getLast?_eq_head?_reverse]
  simp

theorem drexel_hrmin (h m : Nat) :
    parse_drexel_runtime_minutes
      (natStr h ++ " hr " ++ natStr m ++ " min") = some (h * 60 + m) := by
  have hdata : (natStr h ++ " hr " ++ natStr m ++ " min").data =
      natChars h ++ ' ' :: 'h' :: 'r' :: ' ' ::
        (natChars m ++ ' ' :: 'm' :: 'i' :: 'n' :: []) := by
    show ((natChars h ++ [' ', 'h', 'r', ' ']) ++ natChars m) ++
        [' ', 'm', 'i', 'n'] = _
    simp
  have hstr : (natStr h ++ " hr " ++ natStr m ++ " min") =
      ⟨natChars h ++ ' ' :: 'h' :: 'r' :: ' ' ::
        (natChars m ++ ' ' :: 'm' :: 'i' :: 'n' :: [])⟩ := by
    rw [← hdata]
  obtain ⟨c, cs, hcons, hdg⟩ := natChars_head_digit h
  have hhead : (natChars h ++ ' ' :: 'h' :: 'r' :: ' ' ::
      (natChars m ++ ' ' :: 'm' :: 'i' :: 'n' :: [])).head? = some c := by
    rw [hcons]
    rfl
  have hlast : (natChars h ++ ' ' :: 'h' :: 'r' :: ' ' ::
      (natChars m ++ ' ' :: 'm' :: 'i' :: 'n' :: [])).getLast? = some 'n' := by
    have := getLast_append_tail (natChars h)
      (' ' :: 'h' :: 'r' :: ' ' :: (natChars m ++ [' ', 'm', 'i'])) 'n'
    simp only [List.append_assoc, List.cons_append, List.nil_append] at this
    exact this
  have hne2 : (natChars h ++ ' ' :: 'h' :: 'r' :: ' ' ::
      (natChars m ++ ' ' :: 'm' :: 'i' :: 'n' :: [])) ≠ [] := by
    rw [hcons]
    simp
  have hneStr : (⟨natChars h ++ ' ' :: 'h' :: 'r' :: ' ' ::
      (natChars m ++ ' ' :: 'm' :: 'i' :: 'n' :: [])⟩ : String) ≠ "" := by
    intro hc
    exact hne2 (congrArg String.data hc)
  have hstrip := pyStrip_eq_self hhead (isDigit_not_space hdg) hlast
    (by decide)
  have hstripdata : (pyStrip (⟨natChars h ++ ' ' :: 'h' :: 'r' :: ' ' ::
      (natChars m ++ ' ' :: 'm' :: 'i' :: 'n' :: [])⟩ : String)).data =
      natChars h ++ ' ' :: 'h' :: 'r' :: ' ' ::
        (natChars m ++ ' ' :: 'm' :: 'i' :: 'n' :: []) := by
    rw [hstrip]
  rw [hstr]
  unfold parse_drexel_runtime_minutes
  rw [if_neg hneStr]
  dsimp only
  rw [hstripdata]
  rw [searchHrMin_of_head hne2 (matchHrMinAt_canonical h m [])]

theorem drexel_minonly (m : Nat) :
    parse_drexel_runtime_minutes (natStr m ++ " min") = some m := by
  have hdata : (natStr m ++ " min").data =
      natChars m ++ ' ' :: 'm' :: 'i' :: 'n' :: [] := by
    show natChars m ++ [' ', 'm', 'i', 'n'] = _
    simp
  have hstr : (natStr m ++ " min") =
      ⟨natChars m ++ ' ' :: 'm' :: 'i' :: 'n' :: []⟩ := by
    rw [← hdata]
  obtain ⟨c, cs, hcons, hdg⟩ := natChars_head_digit m
  have hhead : (natChars m ++ ' ' :: 'm' :: 'i' :: 'n' :: []).head? =
      some c := by
    rw [hcons]
    rfl
  have hlast : (natChars m ++ ' ' :: 'm' :: 'i' :: 'n' :: []).getLast? =
      some 'n' := by
    have := getLast_append_tail (natChars m) [' ', 'm', 'i'] 'n'
    simp only [List.cons_append, List.nil_append] at this
    exact this
  have hne2 : (natChars m ++ ' ' :: 'm' :: 'i' :: 'n' :: []) ≠ [] := by
    rw [hcons]
    simp
  have hneStr : (⟨natChars m ++ ' ' :: 'm' :: 'i' :: 'n' :: []⟩ : String) ≠
      "" := by
    intro hc
    exact hne2 (congrArg String.data hc)
  have hnoh : ∀ c2 ∈ (natChars m ++ ' ' :: 'm' :: 'i' :: 'n' :: []),
      ¬ lowerChar c2 = 'h' := by
    intro c2 hc2
    rcases List.mem_append.mp hc2 with hin | hin
    · exact digit_lowerChar_ne_h (natChars_digits m c2 hin)
    · simp at hin
      rcases hin with rfl | rfl | rfl | rfl <;> decide
  have hstrip := pyStrip_eq_self hhead (isDigit_not_space hdg) hlast
    (by decide)
  have hstripdata : (pyStrip (⟨natChars m ++ ' ' :: 'm' :: 'i' :: 'n' ::
      []⟩ : String)).data = natChars m ++ ' ' :: 'm' :: 'i' :: 'n' :: [] := by
    rw [hstrip]
  rw [hstr]
  unfold parse_drexel_runtime_minutes
  rw [if_neg hneStr]
  dsimp only
  rw [hstripdata]
  rw [searchHrMin_no_h _ hnoh]
  dsimp only
  rw [searchMin_of_head hne2 (matchMinAt_canonical m [])]

theorem s35_dur_both (h m : Nat) :
    parse_studio35_runtime_minutes_from_soup
      [.parsed (.jobj [("@type", .jstr "Movie"),
        ("duration", .jstr ("PT" ++ natStr h ++ "H" ++ natStr m ++ "M"))])] =
      some (h * 60 + m) := by
  have hdata : ("PT" ++ natStr h ++ "H" ++ natStr m ++ "M" : String).data =
      'P' :: 'T' :: (natChars h ++ 'H' :: (natChars m ++ ['M'])) := by
    show (((['P', 'T'] ++ natChars h) ++ ['H']) ++ natChars m) ++ ['M'] = _
    simp
  have hd : ("PT" ++ natStr h ++ "H" ++ natStr m ++ "M" : String) =
      ⟨'P' :: 'T' :: (natChars h ++ 'H' :: (natChars m ++ ['M']))⟩ := by
    rw [← hdata]
  have hne : (⟨'P' :: 'T' :: (natChars h ++ 'H' :: (natChars m ++ ['M']))⟩ :
      String) ≠ "" := by
    intro hc
    exact List.noConfusion (congrArg String.data hc)
  rw [hd]
  rw [s35_soup_duration hne (matchPT_both h m)]
  simp

theorem s35_dur_minonly (m : Nat) :
    parse_studio35_runtime_minutes_from_soup
      [.parsed (.jobj [("@type", .jstr "Movie"),
        ("duration", .jstr ("PT" ++ natStr m ++ "M"))])] = some m := by
  have hdata : ("PT" ++ natStr m ++ "M" : String).data =
      'P' :: 'T' :: (natChars m ++ ['M']) := by
    show (['P', 'T'] ++ natChars m) ++ ['M'] = _
    simp
  have hd : ("PT" ++ natStr m ++ "M" : String) =
      ⟨'P' :: 'T' :: (natChars m ++ ['M'])⟩ := by
    rw [← hdata]
  have hne : (⟨'P' :: 'T' :: (natChars m ++ ['M'])⟩ : String) ≠ "" := by
    intro hc
    exact List.noConfusion (congrArg String.data hc)
  rw [hd]
  rw [s35_soup_duration hne (matchPT_minOnly m)]
  simp

theorem s35_dur_houronly (h : Nat) :
    parse_studio35_runtime_minutes_from_soup
      [.parsed (.jobj [("@type", .jstr "Movie"),
        ("duration", .jstr ("PT" ++ natStr h ++ "H"))])] = some (h * 60) := by
  have hdata : ("PT" ++ natStr h ++ "H" : String).data =
      'P' :: 'T' :: (natChars h ++ ['H']) := by
    show (['P', 'T'] ++ natChars h) ++ ['H'] = _
    simp
  have hd : ("PT" ++ natStr h ++ "H" : String) =
      ⟨'P' :: 'T' :: (natChars h ++ ['H'])⟩ := by
    rw [← hdata]
  have hne : (⟨'P' :: 'T' :: (natChars h ++ ['H'])⟩ : String) ≠ "" := by
    intro hc
    exact List.noConfusion (congrArg String.data hc)
  rw [hd]
  rw [s35_soup_duration hne (matchPT_hourOnly h)]
  simp

/-! ## The claims -/

/-- C1 (amended): lexicographic order on canonical `"YYYY-MM-DD HH:MM"`
timestamps coincides with chronological order; every Studio 35 and
Drexel listing carries a sorted, duplicate-free list of canonical
timestamps.  Gateway listings are sorted and duplicate-free as well, but
their entries only have the shape of a canonical timestamp optionally
followed by a ` ({label})` suffix: a non-empty pill label (e.g. `4K
Restoration`) breaks the pure `"YYYY-MM-DD HH:MM"` format the claim
asserts, see the counterexample. -/
theorem c1_showtimes_format_sorted :
    (∀ (a b : PyDateTime), tsValid a → tsValid b →
      (mkTimestamp a ≤ mkTimestamp b ↔ chronoKey a ≤ chronoKey b)) ∧
    (∀ (y : Nat) (w : S35World) (r : List Listing),
      fetch_studio35 y w = .ok r → ∀ l ∈ r,
        l.showtimes.Sorted (· ≤ ·) ∧ l.showtimes.Nodup ∧
        ∀ s ∈ l.showtimes, isTimestamp s) ∧
    (∀ (y : Nat) (w : DWorld) (r : List Listing),
      fetch_drexel y w = .ok r → ∀ l ∈ r,
        l.showtimes.Sorted (· ≤ ·) ∧ l.showtimes.Nodup ∧
        ∀ s ∈ l.showtimes, isTimestamp s) ∧
    (∀ (w : GWorld), ∀ l ∈ (fetch_gateway w).1,
      l.showtimes.Sorted (· ≤ ·) ∧ l.showtimes.Nodup ∧
      ∀ s ∈ l.showtimes, GShape s) := by
  refine ⟨fun a b ha hb => mkTimestamp_le_iff ha hb, ?_, ?_, ?_⟩
  · intro y w r hr l hl
    obtain ⟨hp, hts⟩ := fetch_studio35_props hr l hl
    exact ⟨sorted_of_pairwise_lt hp, nodup_of_pairwise_lt hp, hts⟩
  · intro y w r hr l hl
    obtain ⟨hp, hts⟩ := fetch_drexel_props hr l hl
    exact ⟨sorted_of_pairwise_lt hp, nodup_of_pairwise_lt hp, hts⟩
  · intro w l hl
    obtain ⟨hp, hts⟩ := fetch_gateway_listing_props w l hl
    exact ⟨sorted_of_pairwise_lt hp, nodup_of_pairwise_lt hp, hts⟩

/-- C1 witness: the amended theorem applied to two concrete valid
datetimes and to the concrete runs on `s35A`, `drxA` and `gwA`. -/
theorem c1_witness :
    (mkTimestamp ⟨2025, 10, 5, 11, 0⟩ ≤ mkTimestamp ⟨2025, 10, 7, 21, 15⟩ ↔
      chronoKey ⟨2025, 10, 5, 11, 0⟩ ≤ chronoKey ⟨2025, 10, 7, 21, 15⟩) ∧
    (∀ l ∈ s35A_result, l.showtimes.Sorted (· ≤ ·) ∧ l.showtimes.Nodup ∧
      ∀ s ∈ l.showtimes, isTimestamp s) ∧
    (∀ l ∈ drxA_result, l.showtimes.Sorted (· ≤ ·) ∧ l.showtimes.Nodup ∧
      ∀ s ∈ l.showtimes, isTimestamp s) ∧
    (∀ l ∈ (fetch_gateway gwA).1, l.showtimes.Sorted (· ≤ ·) ∧
      l.showtimes.Nodup ∧ ∀ s ∈ l.showtimes, GShape s) := by
  obtain ⟨h1, h2, h3, h4⟩ := c1_showtimes_format_sorted
  exact ⟨h1 ⟨2025, 10, 5, 11, 0⟩ ⟨2025, 10, 7, 21, 15⟩ (by decide)
      (by decide),
    h2 2025 s35A s35A_result rfl, h3 2025 drxA drxA_result rfl, h4 gwA⟩

/-- C1 counterexample: on `gwA` the Gateway unit emits the showtime entry
`"2025-10-07 14:00 (4K)"`, which is not in `"YYYY-MM-DD HH:MM"` format
(it is 21 characters long, a canonical timestamp has 16). -/
theorem c1_counterexample :
    ∃ l ∈ (fetch_gateway gwA).1, ∃ s ∈ l.showtimes, ¬ isTimestamp s := by
  have hfe : (fetch_gateway gwA).1 = gwA_result := rfl
  rw [hfe]
  refine ⟨_, List.mem_singleton.mpr rfl, "2025-10-07 14:00 (4K)",
    by decide, ?_⟩
  rintro ⟨dt, -, heq⟩
  have h16 : ("2025-10-07 14:00 (4K)" : String).data.length = 16 := by
    rw [heq]
    exact mkTimestamp_data_length dt
  exact absurd h16 (by decide)

/-- C2: a key (movie URL, or title when the URL is absent) collected from
both Gateway entry points yields a single merged record whose showtime set
is the union of the two collected showtime sets, and the final Gateway
result list has pairwise-distinct merge keys. -/
theorem c2_merge_by_key :
    ∀ (w : GWorld) (k : String) (rA rB : GRec),
      alookup (collect_from_upcoming w).out k = some rA →
      alookup (collect_from_homepage w).1 k = some rB →
      (∃ r, alookup (gateway_by_key w) k = some r ∧
        ∀ s, s ∈ r.showtimes ↔ (s ∈ rA.showtimes ∨ s ∈ rB.showtimes)) ∧
      (((fetch_gateway w).1).map recKey).Nodup := by
  intro w k rA rB hA hB
  exact ⟨gateway_merge_union w hA hB, fetch_gateway_keys_nodup w⟩

/-- C2 witness: on `gwA` the URL `draculaURL` is collected from both entry
points and the merged record unions the two showtime sets. -/
theorem c2_witness :
    (∃ r, alookup (gateway_by_key gwA) draculaURL = some r ∧
      ∀ s, s ∈ r.showtimes ↔
        (s ∈ gwA_upRec.showtimes ∨ s ∈ gwA_homeRec.showtimes)) ∧
    (((fetch_gateway gwA).1).map recKey).Nodup :=
  c2_merge_by_key gwA draculaURL gwA_upRec gwA_homeRec rfl rfl

/-- C3: refuted as stated — the runtime for a movie URL is NOT fetched at
most once per run.  `collect_from_upcoming` fills and consults
`runtime_cache`, but `collect_from_homepage` calls the runtime fetch
directly (its own comment says `Runtime (cache by URL)`), so on `gwA`,
where both entry points list the same URL, the runtime-request trace
contains `draculaURL` twice. -/
theorem c3_runtime_fetched_twice :
    (fetch_gateway gwA).2 = [draculaURL, draculaURL] := rfl

/-- C4 (amended): only the Gateway unit is fully exception-contained (it is
total).  The Drexel list-page request sits outside any `try`, and the whole
Studio 35 unit body has none, so a failing page request propagates out of
those units; moreover a loaded Drexel page aborts the unit with an uncaught
`KeyError` as soon as a named item's `a.ViewLink` lacks an `href`
attribute.  When the page requests succeed and no such item occurs, the
units return normally, skipping only unparsable items. -/
theorem c4_error_containment :
    (∀ (w : GWorld), ∃ res trace, fetch_gateway w = (res, trace)) ∧
    (∀ (y : Nat) (w : DWorld) (items : List DrexelItem),
      w.page = some items →
      (∀ item ∈ items, item.name.isSome = true →
        item.viewHref ≠ some none) →
      ∃ r, fetch_drexel y w = .ok r) ∧
    (∀ (y : Nat) (w : DWorld) (items : List DrexelItem),
      w.page = some items →
      (∃ item ∈ items, item.name.isSome = true ∧
        item.viewHref = some none) →
      fetch_drexel y w = .error ()) ∧
    (∀ (y : Nat) (w : S35World) (hrefs : List String),
      w.homeHrefs = some hrefs →
      (∀ link ∈ pySetOfList (hrefs.filter (fun h => h ≠ "")),
        ∃ pg, w.page (s35FullLink link) = some pg) →
      ∃ r, fetch_studio35 y w = .ok r) ∧
    (∀ (y : Nat) (w : DWorld), w.page = none →
      fetch_drexel y w = .error ()) ∧
    (∀ (y : Nat) (w : S35World), w.homeHrefs = none →
      fetch_studio35 y w = .error ()) := by
  refine ⟨fun w => ⟨_, _, rfl⟩, ?_, ?_, ?_, ?_, ?_⟩
  · intro y w items h hgood
    unfold fetch_drexel
    rw [h]
    exact drexelLoop_ok y items hgood
  · intro y w items h hbad
    unfold fetch_drexel
    rw [h]
    exact drexelLoop_error y items hbad
  · intro y w hrefs hh hp
    exact fetch_studio35_ok hh hp
  · intro y w h
    unfold fetch_drexel
    rw [h]
  · intro y w h
    unfold fetch_studio35
    rw [h]

/-- C4 witness: the amended theorem applied to the concrete worlds — the
successful Drexel and Studio 35 runs, the `KeyError` abort on a loaded
page, and the failing page requests. -/
theorem c4_witness :
    (∃ r, fetch_drexel 2025 drxA = .ok r) ∧
    fetch_drexel 2025 drxKey = .error () ∧
    (∃ r, fetch_studio35 2025 s35A = .ok r) ∧
    fetch_drexel 2025 drxFail = .error () ∧
    fetch_studio35 2025 s35Fail = .error () := by
  obtain ⟨-, h2, h3, h4, h5, h6⟩ := c4_error_containment
  refine ⟨h2 2025 drxA drxA_items rfl (by decide),
    h3 2025 drxKey drxKeyItems rfl
      ⟨_, List.mem_singleton.mpr rfl, rfl, rfl⟩,
    h4 2025 s35A ["/movie/rocky-horror", "/movie/rocky-horror", ""] rfl ?_,
    h5 2025 drxFail rfl, h6 2025 s35Fail rfl⟩
  intro link hl
  rw [show pySetOfList ((["/movie/rocky-horror", "/movie/rocky-horror",
    ""]).filter (fun h => h ≠ "")) = ["/movie/rocky-horror"] from rfl] at hl
  obtain rfl := List.mem_singleton.mp hl
  exact ⟨_, rfl⟩

/-- C4 counterexample: a failing page request aborts the Drexel and the
Studio 35 unit instead of being caught inside it, and an href-less
`a.ViewLink` on a successfully loaded Drexel page aborts that unit too. -/
theorem c4_counterexample :
    fetch_drexel 2025 drxFail = .error () ∧
    fetch_studio35 2025 s35Fail = .error () ∧
    fetch_drexel 2025 drxKey = .error () := ⟨rfl, rfl, rfl⟩

/-- C5: the duration normalizers.  Drexel: `"{h} hr {m} min"` text yields
`60*h + m`, bare `"{m} min"` text yields `m`, the hours-and-minutes form is
preferred over an earlier bare-minutes match, and non-matching text yields
none.  Studio 35: a JSON-LD Movie duration `"PT{h}H{m}M"` yields `60*h + m`
with either component optional (`"PT102M"` yields `102`). -/
theorem c5_duration_normalizers :
    (∀ h m : Nat, parse_drexel_runtime_minutes
      (natStr h ++ " hr " ++ natStr m ++ " min") = some (60 * h + m)) ∧
    (∀ m : Nat, parse_drexel_runtime_minutes (natStr m ++ " min") =
      some m) ∧
    parse_drexel_runtime_minutes "NR | 35 min or 2 hr 5 min" = some 125 ∧
    parse_drexel_runtime_minutes "" = none ∧
    parse_drexel_runtime_minutes "No runtime listed" = none ∧
    (∀ h m : Nat, parse_studio35_runtime_minutes_from_soup
      [.parsed (.jobj [("@type", .jstr "Movie"),
        ("duration", .jstr ("PT" ++ natStr h ++ "H" ++ natStr m ++ "M"))])] =
      some (60 * h + m)) ∧
    (∀ m : Nat, parse_studio35_runtime_minutes_from_soup
      [.parsed (.jobj [("@type", .jstr "Movie"),
        ("duration", .jstr ("PT" ++ natStr m ++ "M"))])] = some m) ∧
    (∀ h : Nat, parse_studio35_runtime_minutes_from_soup
      [.parsed (.jobj [("@type", .jstr "Movie"),
        ("duration", .jstr ("PT" ++ natStr h ++ "H"))])] = some (60 * h)) ∧
    parse_studio35_runtime_minutes_from_soup
      [.parsed (.jobj [("@type", .jstr "Movie"),
        ("duration", .jstr "PT102M")])] = some 102 := by
  refine ⟨?_, drexel_minonly, rfl, rfl, rfl, ?_, s35_dur_minonly, ?_, rfl⟩
  · intro h m
    rw [Nat.mul_comm 60 h]
    exact drexel_hrmin h m
  · intro h m
    rw [Nat.mul_comm 60 h]
    exact s35_dur_both h m
  · intro h
    rw [Nat.mul_comm 60 h]
    exact s35_dur_houronly h

/-- C6: each venue's entry in the combined document depends only on that
venue's own fetched inputs: two successful runs that agree on one venue's
world agree on that venue's entry, whatever the other two worlds are. -/
theorem c6_venue_independence :
    ∀ (y : Nat) (wG wG2 : GWorld) (wS wS2 : S35World) (wD wD2 : DWorld)
      (o o2 : List (String × List Listing)),
      fetch_all_cinemas y wG wS wD = .ok o →
      fetch_all_cinemas y wG2 wS2 wD2 = .ok o2 →
      (wG = wG2 → alookup o "gateway" = alookup o2 "gateway") ∧
      (wS = wS2 → alookup o "studio35" = alookup o2 "studio35") ∧
      (wD = wD2 → alookup o "drexel" = alookup o2 "drexel") := by
  intro y wG wG2 wS wS2 wD wD2 o o2 h1 h2
  obtain ⟨s, d, hs, hd, rfl⟩ := fetch_all_cinemas_inv h1
  obtain ⟨s2, d2, hs2, hd2, rfl⟩ := fetch_all_cinemas_inv h2
  refine ⟨?_, ?_, ?_⟩
  · rintro rfl
    rfl
  · rintro rfl
    rw [hs] at hs2
    simp only [Except.ok.injEq] at hs2
    subst hs2
    rfl
  · rintro rfl
    rw [hd] at hd2
    simp only [Except.ok.injEq] at hd2
    subst hd2
    rfl

/-- C6 witness: two concrete successful runs sharing only the Gateway
world produce the same `"gateway"` entry. -/
theorem c6_witness :
    alookup cinDocA "gateway" = alookup cinDocB "gateway" :=
  (c6_venue_independence 2025 gwA gwA s35A s35B drxA drxB cinDocA cinDocB
    rfl rfl).1 rfl

/-- C7: a successful combined run produces a document with exactly the
keys `"gateway"`, `"studio35"`, `"drexel"` in that order, each bound to
the corresponding unit's result, and `cinemas.json` afterwards holds
exactly that document whatever it held before (full overwrite). -/
theorem c7_combined_document :
    ∀ (y : Nat) (wG : GWorld) (wS : S35World) (wD : DWorld)
      (doc : List (String × List Listing)),
      fetch_all_cinemas y wG wS wD = .ok doc →
      doc.map Prod.fst = ["gateway", "studio35", "drexel"] ∧
      alookup doc "gateway" = some (fetch_gateway wG).1 ∧
      (∃ s, fetch_studio35 y wS = .ok s ∧ alookup doc "studio35" = some s) ∧
      (∃ d, fetch_drexel y wD = .ok d ∧ alookup doc "drexel" = some d) ∧
      (∀ prev, cinemas_json_after y wG wS wD prev = some doc) := by
  intro y wG wS wD doc h
  obtain ⟨s, d, hs, hd, hdoc⟩ := fetch_all_cinemas_inv h
  subst hdoc
  refine ⟨rfl, rfl, ⟨s, hs, rfl⟩, ⟨d, hd, rfl⟩, ?_⟩
  intro prev
  unfold cinemas_json_after
  rw [h]

/-- C7 witness: the combiner theorem applied to the concrete successful
run on `gwA`, `s35A`, `drxA`. -/
theorem c7_witness :
    cinDocA.map Prod.fst = ["gateway", "studio35", "drexel"] ∧
    alookup cinDocA "gateway" = some (fetch_gateway gwA).1 ∧
    (∃ s, fetch_studio35 2025 s35A = .ok s ∧
      alookup cinDocA "studio35" = some s) ∧
    (∃ d, fetch_drexel 2025 drxA = .ok d ∧
      alookup cinDocA "drexel" = some d) ∧
    (∀ prev, cinemas_json_after 2025 gwA s35A drxA prev = some cinDocA) :=
  c7_combined_document 2025 gwA s35A drxA cinDocA rfl

/-- C8: when the current year `y` has four digits, every Studio 35 and
Drexel showtime string prints a valid datetime whose year component is
exactly `y` — the scraped text carries no year, the parsers append
`datetime.now().year`, so a listing whose real date lies in another
calendar year is still stamped with `y`. -/
theorem c8_current_year_stamped :
    ∀ (y : Nat), 1000 ≤ y → y ≤ 9999 →
      (∀ (w : S35World) (r : List Listing), fetch_studio35 y w = .ok r →
        ∀ l ∈ r, ∀ s ∈ l.showtimes,
          ∃ dt, tsValid dt ∧ s = mkTimestamp dt ∧ dt.year = y) ∧
      (∀ (w : DWorld) (r : List Listing), fetch_drexel y w = .ok r →
        ∀ l ∈ r, ∀ s ∈ l.showtimes,
          ∃ dt, tsValid dt ∧ s = mkTimestamp dt ∧ dt.year = y) := by
  intro y hy1 hy2
  exact ⟨fun w r hr => fetch_studio35_year hy1 hy2 hr,
    fun w r hr => fetch_drexel_year hy1 hy2 hr⟩

/-- C8 witness: in the 2025 runs on `s35A` and `drxB` every showtime is
stamped with year 2025 — including Drexel's `"Wed, Jan 1"` listing, whose
real date falls in the next calendar year. -/
theorem c8_witness :
    (∀ l ∈ s35A_result, ∀ s ∈ l.showtimes,
      ∃ dt, tsValid dt ∧ s = mkTimestamp dt ∧ dt.year = 2025) ∧
    (∀ l ∈ drxB_result, ∀ s ∈ l.showtimes,
      ∃ dt, tsValid dt ∧ s = mkTimestamp dt ∧ dt.year = 2025) :=
  ⟨(c8_current_year_stamped 2025 (by decide) (by decide)).1 s35A
      s35A_result rfl,
    (c8_current_year_stamped 2025 (by decide) (by decide)).2 drxB
      drxB_result rfl⟩

/-- C9: a non-empty JSON-LD Movie duration beginning with `PT` and
containing neither an hour nor a minute component still matches the
duration pattern with both groups absent, so the Studio 35 runtime comes
out as the integer 0, not as absent. -/
theorem c9_pt_zero :
    ∀ (rest : List Char), ptNoComponents rest →
      parse_studio35_runtime_minutes_from_soup
        [.parsed (.jobj [("@type", .jstr "Movie"),
          ("duration", .jstr ⟨'P' :: 'T' :: rest⟩)])] = some 0 := by
  intro rest hr
  have hne : (⟨'P' :: 'T' :: rest⟩ : String) ≠ "" := by
    intro hc
    exact List.noConfusion (congrArg String.data hc)
  have h := s35_soup_duration hne (matchPT_noComponents hr)
  simpa using h

/-- C9 witness: the duration string `"PT"` itself yields runtime 0. -/
theorem c9_witness :
    parse_studio35_runtime_minutes_from_soup
      [.parsed (.jobj [("@type", .jstr "Movie"),
        ("duration", .jstr ⟨['P', 'T']⟩)])] = some 0 :=
  c9_pt_zero [] (Or.inl rfl)

/-- C10: `parse_time_12h_to_24h` is total and shape-correct: it maps every
input (including `none` and the empty string) to either `none` or
`strftimeHM h m` with `h ≤ 23` and `m ≤ 59`; `strftimeHM` always prints
five characters; meridiem matching is case-insensitive, `"12 am"` maps to
`"00:00"` and `"12 pm"` maps to `"12:00"`. -/
theorem c10_parse_time_total_shape :
    (∀ t : Option String, parse_time_12h_to_24h t = none ∨
      ∃ h m, h ≤ 23 ∧ m ≤ 59 ∧
        parse_time_12h_to_24h t = some (strftimeHM h m)) ∧
    (∀ h m : Nat, (strftimeHM h m).length = 5) ∧
    parse_time_12h_to_24h (some "12 am") = some "00:00" ∧
    parse_time_12h_to_24h (some "12 pm") = some "12:00" ∧
    parse_time_12h_to_24h (some "7:30 PM") = some "19:30" ∧
    parse_time_12h_to_24h (some "") = none ∧
    parse_time_12h_to_24h none = none := by
  refine ⟨?_, ?_, rfl, rfl, rfl, rfl, rfl⟩
  · intro t
    cases hp : parse_time_12h_to_24h t with
    | none => exact Or.inl rfl
    | some s =>
        obtain ⟨h, m, h1, h2, hs⟩ := parse_time_shape hp
        exact Or.inr ⟨h, m, h1, h2, by rw [hs]⟩
  · intro h m
    rfl

end ComingAttractions
